import Mathlib

/-!
Shallow embedding of the mnaufalhilmym/proxy repository (Go) and proofs
about it.  Text is modelled as `List Char` (Go strings at the rune level)
and raw bytes as `List Nat` (each element intended `< 256`).

The Go standard-library pieces the program uses are modelled as follows:
* `encoding/base64` (`StdEncoding` / `URLEncoding` with `=` padding) is
  implemented here per RFC 4648, which is what the Go package implements.
  The Go decoder's tolerance for `\r`/`\n` inside the input is not
  modelled; no input considered here contains those characters.
* `net/url` parsing and reference resolution, `net/http` transport and
  the `golang.org/x/net/html` parser/renderer are external collaborators
  and appear as explicit oracle parameters (`Env`, `p`).
-/

/-- `base64.StdEncoding`'s alphabet. -/
def stdAlphabet : List Char :=
  "ABCDEFGHIJKLMNOPQRSTUVWXYZabcdefghijklmnopqrstuvwxyz0123456789+/".toList

/-- `base64.URLEncoding`'s alphabet. -/
def urlAlphabet : List Char :=
  "ABCDEFGHIJKLMNOPQRSTUVWXYZabcdefghijklmnopqrstuvwxyz0123456789-_".toList

/-- Look up symbol `i` of a base64 alphabet. -/
def b64Alpha (alpha : List Char) (i : Nat) : Char := alpha.getD i 'A'

/-- RFC 4648 base64 encoding with `=` padding over a chosen alphabet,
as performed by Go's `Encoding.EncodeToString`. -/
def b64EncodeWith (alpha : List Char) : List Nat → List Char
  | b1 :: b2 :: b3 :: rest =>
    b64Alpha alpha (b1 / 4) :: b64Alpha alpha ((b1 % 4) * 16 + b2 / 16) ::
    b64Alpha alpha ((b2 % 16) * 4 + b3 / 64) :: b64Alpha alpha (b3 % 64) ::
    b64EncodeWith alpha rest
  | [b1, b2] =>
    [b64Alpha alpha (b1 / 4), b64Alpha alpha ((b1 % 4) * 16 + b2 / 16),
     b64Alpha alpha ((b2 % 16) * 4), '=']
  | [b1] =>
    [b64Alpha alpha (b1 / 4), b64Alpha alpha ((b1 % 4) * 16), '=', '=']
  | [] => []

/-- Index of a character in an alphabet (offset accumulator). -/
def idxOfAux (c : Char) : List Char → Nat → Option Nat
  | [], _ => none
  | a :: t, i => if a = c then some i else idxOfAux c t (i + 1)

/-- Value of a base64 symbol, `none` for characters outside the alphabet. -/
def b64CharVal (alpha : List Char) (c : Char) : Option Nat := idxOfAux c alpha 0

/-- RFC 4648 base64 decoding with `=` padding, as performed by Go's
`Encoding.DecodeString`: the input length must be a multiple of four,
padding may appear only in the final quantum, and any character outside
the alphabet is rejected.  (Go's default decoders do not check the unused
trailing bits of the last quantum, and neither does this one.) -/
def b64DecodeWith (alpha : List Char) : List Char → Option (List Nat)
  | [] => some []
  | [c1, c2, '=', '='] => do
    let v1 ← b64CharVal alpha c1
    let v2 ← b64CharVal alpha c2
    some [v1 * 4 + v2 / 16]
  | [c1, c2, c3, '='] => do
    let v1 ← b64CharVal alpha c1
    let v2 ← b64CharVal alpha c2
    let v3 ← b64CharVal alpha c3
    some [v1 * 4 + v2 / 16, (v2 % 16) * 16 + v3 / 4]
  | c1 :: c2 :: c3 :: c4 :: rest => do
    let v1 ← b64CharVal alpha c1
    let v2 ← b64CharVal alpha c2
    let v3 ← b64CharVal alpha c3
    let v4 ← b64CharVal alpha c4
    let tail ← b64DecodeWith alpha rest
    some ([v1 * 4 + v2 / 16, (v2 % 16) * 16 + v3 / 4, (v3 % 4) * 64 + v4] ++ tail)
  | _ => none

/-- UTF-8 encoding of one character (what casting a Go string to `[]byte`
produces for each rune). -/
def utf8EncodeChar (c : Char) : List Nat :=
  let n := c.toNat
  if n < 128 then [n]
  else if n < 2048 then [192 + n / 64, 128 + n % 64]
  else if n < 65536 then [224 + n / 4096, 128 + n / 64 % 64, 128 + n % 64]
  else [240 + n / 262144, 128 + n / 4096 % 64, 128 + n / 64 % 64, 128 + n % 64]

/-- UTF-8 bytes of a string, i.e. Go's `[]byte(s)`. -/
def utf8Bytes (s : List Char) : List Nat := (s.map utf8EncodeChar).flatten

/-- `base64.URLEncoding.EncodeToString`, the encoder every rewriter uses
to build an opaque address (src/rewrite.go lines 69, 107, 124, 149, 167, 185). -/
def encodeURLSeg (bs : List Nat) : List Char := b64EncodeWith urlAlphabet bs

/-- `base64.URLEncoding.DecodeString`, the decoder used by the handler in
src/unnamed/part_000 line 22. -/
def decodeURLSeg (s : List Char) : Option (List Nat) := b64DecodeWith urlAlphabet s

/-- `base64.StdEncoding.DecodeString`, the decoder used by the handler in
src/main.go line 22. -/
def decodeStdSeg (s : List Char) : Option (List Nat) := b64DecodeWith stdAlphabet s

theorem urlAlpha_mem (i : Nat) : b64Alpha urlAlphabet i ∈ urlAlphabet := by
  unfold b64Alpha
  rcases Nat.lt_or_ge i urlAlphabet.length with h | h
  · rw [List.getD_eq_getElem?_getD, List.getElem?_eq_getElem h]
    exact List.getElem_mem h
  · rw [List.getD_eq_default _ _ h]
    decide

/-- Every character of a URL-safe base64 encoding is an alphabet symbol
or the padding character. -/
theorem encodeURLSeg_chars :
    ∀ (bs : List Nat) (c : Char), c ∈ encodeURLSeg bs → c ∈ urlAlphabet ∨ c = '='
  | [], c, h => by simp [encodeURLSeg, b64EncodeWith] at h
  | [b1], c, h => by
    simp only [encodeURLSeg, b64EncodeWith, List.mem_cons,
      List.not_mem_nil, or_false] at h
    rcases h with h | h | h | h
    · exact Or.inl (h ▸ urlAlpha_mem _)
    · exact Or.inl (h ▸ urlAlpha_mem _)
    · exact Or.inr h
    · exact Or.inr h
  | [b1, b2], c, h => by
    simp only [encodeURLSeg, b64EncodeWith, List.mem_cons,
      List.not_mem_nil, or_false] at h
    rcases h with h | h | h | h
    · exact Or.inl (h ▸ urlAlpha_mem _)
    · exact Or.inl (h ▸ urlAlpha_mem _)
    · exact Or.inl (h ▸ urlAlpha_mem _)
    · exact Or.inr h
  | b1 :: b2 :: b3 :: rest, c, h => by
    simp only [encodeURLSeg, b64EncodeWith, List.mem_cons] at h
    rcases h with h | h | h | h | h
    · exact Or.inl (h ▸ urlAlpha_mem _)
    · exact Or.inl (h ▸ urlAlpha_mem _)
    · exact Or.inl (h ▸ urlAlpha_mem _)
    · exact Or.inl (h ▸ urlAlpha_mem _)
    · exact encodeURLSeg_chars rest c h

/-- C1: the claim asserts that the decoding applied by the request handler
inverts the encoding the rewriters use.  The rewriters encode with the
URL-safe alphabet, and while the handler of src/unnamed/part_000 decodes
with the same alphabet (so the round trip holds there), the handler of
src/main.go decodes with `base64.StdEncoding`.  For the absolute URL
`http://x/???` the URL-safe encoding ends in `_`, which the standard
decoder rejects, so that handler answers 400 instead of round-tripping.
This theorem evaluates both decoders on the encoded failing input. -/
theorem c1_decode_encode_mismatch :
    decodeStdSeg (encodeURLSeg (utf8Bytes ("http://x/???").toList)) = none ∧
    decodeURLSeg (encodeURLSeg (utf8Bytes ("http://x/???").toList)) =
      some (utf8Bytes ("http://x/???").toList) := by
  decide

/-- C3: every character of the opaque address produced by
`base64.URLEncoding.EncodeToString` lies in the URL-safe alphabet or is
the `=` padding character; in particular it is neither `/` nor `+`, so the
address needs no percent-escaping in a path segment. -/
theorem c3_encoded_address_path_safe (bs : List Nat) (c : Char)
    (h : c ∈ encodeURLSeg bs) :
    (c ∈ urlAlphabet ∨ c = '=') ∧ c ≠ '/' ∧ c ≠ '+' := by
  have hm := encodeURLSeg_chars bs c h
  have halpha : ∀ x ∈ urlAlphabet, x ≠ '/' ∧ x ≠ '+' := by decide
  refine ⟨hm, ?_, ?_⟩
  · rcases hm with h' | h'
    · exact (halpha c h').1
    · subst h'; decide
  · rcases hm with h' | h'
    · exact (halpha c h').2
    · subst h'; decide

/-- Witness for C3 at the concrete byte string `[104]` (`"h"`), whose
encoding starts with `'a'`. -/
theorem c3_witness :
    (('a' ∈ urlAlphabet ∨ 'a' = '=') ∧ 'a' ≠ '/' ∧ 'a' ≠ '+') :=
  c3_encoded_address_path_safe [104] 'a' (by decide)

/-- ASCII lowercasing of a string, modelling Go's `strings.ToLower` on the
ASCII header names and attribute keys this program compares. -/
def lowerL (s : List Char) : List Char := s.map Char.toLower

/-- The rewrite strategy the response pipeline chooses. -/
inductive Strategy where
  | passThrough
  | rewriteHtml
  | rewriteCss
  | rewriteJs
deriving DecidableEq, Repr

/-- The content classification of src/unnamed/part_000 lines 95-146: the
`browseEnabled && strings.HasPrefix(contentType, ...)` chain selecting a
branch of the response pipeline. -/
def classify (ct : List Char) (browse : Bool) : Strategy :=
  if browse && ("text/html".toList).isPrefixOf ct then .rewriteHtml
  else if browse && ("text/css".toList).isPrefixOf ct then .rewriteCss
  else if browse && (("application/javascript".toList).isPrefixOf ct ||
      ("text/javascript".toList).isPrefixOf ct) then .rewriteJs
  else .passThrough

/-- Modelled from the spec: the classifier the claim describes, choosing
the strategy by CASE-INSENSITIVE prefix match on the media type (spec 4.4).
Used only to compare against `classify`, the classifier of the code. -/
def classifyClaim (ct : List Char) (browse : Bool) : Strategy :=
  if browse && ("text/html".toList).isPrefixOf (lowerL ct) then .rewriteHtml
  else if browse && ("text/css".toList).isPrefixOf (lowerL ct) then .rewriteCss
  else if browse && (("application/javascript".toList).isPrefixOf (lowerL ct) ||
      ("text/javascript".toList).isPrefixOf (lowerL ct)) then .rewriteJs
  else .passThrough

/-- C2 counterexample: for the content type `Text/html` the claimed
case-insensitive match would select the HTML rewriter, but the code's
`strings.HasPrefix` comparison is case-sensitive and the handler passes
the body through untouched. -/
theorem c2_counterexample :
    classify ("Text/html".toList) true = .passThrough ∧
    classifyClaim ("Text/html".toList) true = .rewriteHtml := by
  decide

theorem two_prefix_incompat {s t ct : List Char} (hs : s <+: ct)
    (ht : t <+: ct) (hst : ¬ (t <+: s)) (hts : ¬ (s <+: t)) : False := by
  rcases List.prefix_or_prefix_of_prefix hs ht with h | h
  · exact hts h
  · exact hst h

/-- C2 (amended): with rewrite mode off every content type is passed
through; with rewrite mode on the strategy is chosen by CASE-SENSITIVE
prefix match on the declared content type: a prefix of `text/html` selects
the HTML rewriter, `text/css` the CSS rewriter, `application/javascript`
or `text/javascript` the JS rewriter, anything else is passed through. -/
theorem c2_classify_case_sensitive (ct : List Char) :
    classify ct false = .passThrough ∧
    (classify ct true = .rewriteHtml ↔ ("text/html".toList).isPrefixOf ct = true) ∧
    (classify ct true = .rewriteCss ↔ ("text/css".toList).isPrefixOf ct = true) ∧
    (classify ct true = .rewriteJs ↔
      (("application/javascript".toList).isPrefixOf ct = true ∨
       ("text/javascript".toList).isPrefixOf ct = true)) ∧
    (classify ct true = .passThrough ↔
      (("text/html".toList).isPrefixOf ct = false ∧
       ("text/css".toList).isPrefixOf ct = false ∧
       ("application/javascript".toList).isPrefixOf ct = false ∧
       ("text/javascript".toList).isPrefixOf ct = false)) := by
  refine ⟨by simp [classify], ?_, ?_, ?_, ?_⟩ <;> unfold classify <;>
    rcases hh : ("text/html".toList).isPrefixOf ct with _ | _ <;>
    rcases hc : ("text/css".toList).isPrefixOf ct with _ | _ <;>
    rcases ha : ("application/javascript".toList).isPrefixOf ct with _ | _ <;>
    rcases ht : ("text/javascript".toList).isPrefixOf ct with _ | _ <;>
    simp_all <;>
    first
      | exact two_prefix_incompat hh hc (by decide) (by decide)
      | exact two_prefix_incompat hh ha (by decide) (by decide)
      | exact two_prefix_incompat hh ht (by decide) (by decide)
      | exact two_prefix_incompat hc ha (by decide) (by decide)
      | exact two_prefix_incompat hc ht (by decide) (by decide)

/-- Witness for C2's amended theorem at `text/css; charset=utf-8`. -/
theorem c2_witness :
    classify ("text/css; charset=utf-8".toList) true = .rewriteCss :=
  (c2_classify_case_sensitive ("text/css; charset=utf-8".toList)).2.2.1.mpr
    (by decide)

/-- A Go `http.Header` entry: a (canonical) key with its list of values. -/
abbrev HdrEntry := List Char × List (List Char)

/-- The request-header copy loop of src/unnamed/part_000 lines 50-62:
every inbound header is added to the outbound request except `Host`
(always) and, when browse mode is on, `Accept-Encoding`.  Keys of an
inbound Go request are already in canonical MIME form, so `Header.Add`'s
canonicalisation is the identity and is not repeated here. -/
def copyReqHeaders (browse : Bool) : List HdrEntry → List HdrEntry
  | [] => []
  | (k, vs) :: rest =>
    if lowerL k = "host".toList then copyReqHeaders browse rest
    else if browse && decide (lowerL k = "accept-encoding".toList) then
      copyReqHeaders browse rest
    else (k, vs) :: copyReqHeaders browse rest

/-- The response-header copy closure of src/unnamed/part_000 lines 82-91:
every upstream header is added to the client response except
`Content-Length` when browse mode is on. -/
def copyRespHeaders (browse : Bool) : List HdrEntry → List HdrEntry
  | [] => []
  | (k, vs) :: rest =>
    if browse && decide (lowerL k = "content-length".toList) then
      copyRespHeaders browse rest
    else (k, vs) :: copyRespHeaders browse rest

/-- `resp.Header.Get(key)`: first value of the entry with the given
(canonical) key, or the empty string. -/
def headerGet (key : List Char) : List HdrEntry → List Char
  | [] => []
  | (k, vs) :: rest =>
    if k = key then (match vs with | [] => [] | v :: _ => v)
    else headerGet key rest

/-- C5: a header entry survives the outbound copy exactly when it is an
inbound entry whose lowercased key is not `host` and, in browse mode, not
`accept-encoding`; an upstream entry survives the response copy exactly
when, in browse mode, its lowercased key is not `content-length`.  Both
copies preserve the surviving entries (key and values) verbatim, so no
other header is added, removed or changed. -/
theorem c5_header_copy (browse : Bool) (hs rs : List HdrEntry) (kv : HdrEntry) :
    (kv ∈ copyReqHeaders browse hs ↔
      (kv ∈ hs ∧ lowerL kv.1 ≠ "host".toList ∧
        (browse = true → lowerL kv.1 ≠ "accept-encoding".toList))) ∧
    (kv ∈ copyRespHeaders browse rs ↔
      (kv ∈ rs ∧ (browse = true → lowerL kv.1 ≠ "content-length".toList))) := by
  constructor
  · induction hs with
    | nil => simp [copyReqHeaders]
    | cons h t ih =>
      obtain ⟨k, vs⟩ := h
      by_cases hk : lowerL k = "host".toList
      · rw [show copyReqHeaders browse ((k, vs) :: t) = copyReqHeaders browse t by
          simp [copyReqHeaders, hk]]
        rw [ih]
        constructor
        · rintro ⟨hm, h1, h2⟩; exact ⟨List.mem_cons_of_mem _ hm, h1, h2⟩
        · rintro ⟨hm, h1, h2⟩
          rcases List.mem_cons.mp hm with he | hm'
          · subst he; exact absurd hk h1
          · exact ⟨hm', h1, h2⟩
      · by_cases hae : browse = true ∧ lowerL k = "accept-encoding".toList
        · rw [show copyReqHeaders browse ((k, vs) :: t) = copyReqHeaders browse t by
            simp [copyReqHeaders, hk, hae.1, hae.2]]
          rw [ih]
          constructor
          · rintro ⟨hm, h1, h2⟩; exact ⟨List.mem_cons_of_mem _ hm, h1, h2⟩
          · rintro ⟨hm, h1, h2⟩
            rcases List.mem_cons.mp hm with he | hm'
            · subst he; exact absurd hae.2 (h2 hae.1)
            · exact ⟨hm', h1, h2⟩
        · have hstep : copyReqHeaders browse ((k, vs) :: t) =
              (k, vs) :: copyReqHeaders browse t := by
            rcases hb : browse with _ | _ <;>
              simp_all [copyReqHeaders, hk]
          rw [hstep]
          constructor
          · intro hm
            rcases List.mem_cons.mp hm with he | hm'
            · subst he
              refine ⟨List.mem_cons_self _ _, hk, fun hb => ?_⟩
              intro hx; exact hae ⟨hb, hx⟩
            · have := (ih.mp hm')
              exact ⟨List.mem_cons_of_mem _ this.1, this.2.1, this.2.2⟩
          · rintro ⟨hm, h1, h2⟩
            rcases List.mem_cons.mp hm with he | hm'
            · subst he; exact List.mem_cons_self _ _
            · exact List.mem_cons_of_mem _ (ih.mpr ⟨hm', h1, h2⟩)
  · induction rs with
    | nil => simp [copyRespHeaders]
    | cons h t ih =>
      obtain ⟨k, vs⟩ := h
      by_cases hcl : browse = true ∧ lowerL k = "content-length".toList
      · rw [show copyRespHeaders browse ((k, vs) :: t) = copyRespHeaders browse t by
          simp [copyRespHeaders, hcl.1, hcl.2]]
        rw [ih]
        constructor
        · rintro ⟨hm, h1⟩; exact ⟨List.mem_cons_of_mem _ hm, h1⟩
        · rintro ⟨hm, h1⟩
          rcases List.mem_cons.mp hm with he | hm'
          · subst he; exact absurd hcl.2 (h1 hcl.1)
          · exact ⟨hm', h1⟩
      · have hstep : copyRespHeaders browse ((k, vs) :: t) =
            (k, vs) :: copyRespHeaders browse t := by
          rcases hb : browse with _ | _ <;> simp_all [copyRespHeaders]
        rw [hstep]
        constructor
        · intro hm
          rcases List.mem_cons.mp hm with he | hm'
          · subst he
            exact ⟨List.mem_cons_self _ _, fun hb hx => hcl ⟨hb, hx⟩⟩
          · have := ih.mp hm'
            exact ⟨List.mem_cons_of_mem _ this.1, this.2⟩
        · rintro ⟨hm, h1⟩
          rcases List.mem_cons.mp hm with he | hm'
          · subst he; exact List.mem_cons_self _ _
          · exact List.mem_cons_of_mem _ (ih.mpr ⟨hm', h1⟩)

/-- Witness for C5: `User-Agent` survives the outbound copy in browse
mode, taking both directions of the characterization at a concrete
header list. -/
theorem c5_witness :
    ("User-Agent".toList, [("curl".toList)]) ∈
      copyReqHeaders true
        [("Host".toList, [("example.com".toList)]),
         ("Accept-Encoding".toList, [("gzip".toList)]),
         ("User-Agent".toList, [("curl".toList)])] :=
  (c5_header_copy true
    [("Host".toList, [("example.com".toList)]),
     ("Accept-Encoding".toList, [("gzip".toList)]),
     ("User-Agent".toList, [("curl".toList)])] []
    (("User-Agent".toList, [("curl".toList)]))).1.mpr
    ⟨by decide, by decide, fun _ => by decide⟩

/-- The double-quote character. -/
def dqChar : Char := Char.ofNat 34

/-- The single-quote character. -/
def sqChar : Char := Char.ofNat 39

/-- Membership in the regex class `["']`. -/
def isQuoteChar (c : Char) : Bool := c == dqChar || c == sqChar

/-- Membership in Go regexp's `\s` class: `[\t\n\f\r ]`. -/
def isSpaceChar (c : Char) : Bool :=
  c == Char.ofNat 9 || c == Char.ofNat 10 || c == Char.ofNat 12 ||
  c == Char.ofNat 13 || c == ' '

/-- Membership in the regex class `[^"')]` used by the CSS `url(...)`
pattern. -/
def cssValChar (c : Char) : Bool := !(isQuoteChar c || c == ')')

/-- `Regexp.ReplaceAllStringFunc`: scan left to right; where the matcher
`f` reports a match, emit its replacement and resume right after the
match (`f` returns the text to emit and the total number of characters
the match consumed, which is always at least one since every pattern
begins with a literal); elsewhere copy one character and continue. -/
def scanWith (f : List Char → Option (List Char × Nat)) : List Char → List Char
  | [] => []
  | c :: rest =>
    match f (c :: rest) with
    | some (emit, n) => emit ++ scanWith f (rest.drop (n - 1))
    | none => c :: scanWith f rest
termination_by l => l.length
decreasing_by
  · simp only [List.length_drop, List.length_cons]; omega
  · simp only [List.length_cons]; omega

def cssUrlLit : List Char := "url(".toList

def cssImpLit : List Char := "@import".toList

def jsDynImpLit : List Char := "import(".toList

def jsFromLit : List Char := "from".toList

def jsUrlFnLit : List Char := "URL(".toList

def browseQL : List Char := "?browse=1".toList

/-- `\s*\)`: spaces then a closing parenthesis; returns the rest. -/
def cssSpacesThenParen (l : List Char) : Option (List Char) :=
  match l.dropWhile isSpaceChar with
  | c :: r => if c = ')' then some r else none
  | [] => none

/-- `(["']?)\s*\)` after the value class: an optional closing quote,
spaces, then `)`; tried quote-first as a backtracking engine would.
Returns the captured closing quote and the rest after `)`. -/
def cssTailMatch (l : List Char) : Option (List Char × List Char) :=
  match l with
  | c :: t =>
    if isQuoteChar c then
      match cssSpacesThenParen t with
      | some r => some ([c], r)
      | none =>
        match cssSpacesThenParen l with
        | some r => some (([] : List Char), r)
        | none => none
    else
      match cssSpacesThenParen l with
      | some r => some (([] : List Char), r)
      | none => none
  | [] => none

/-- Greedy backtracking over the `[^"')]+` capture: `revCand` is the
reversed current (longest-first) candidate value, `tail` the text after
it.  Returns the captured value, closing quote and rest on success. -/
def cssBackSearch : List Char → List Char → Option (List Char × List Char × List Char)
  | [], _ => none
  | x :: revRest, tail =>
    match cssTailMatch tail with
    | some (cq, r) => some ((x :: revRest).reverse, cq, r)
    | none => cssBackSearch revRest (x :: tail)

/-- `(["']?)([^"')]+)(["']?)\s*\)` from a given start: an optional opening
quote (forced when present, since the value class excludes quotes) then
the greedy value search.  Returns opening quote, value, closing quote and
rest. -/
def cssQuoteClass (l2 : List Char) :
    Option (List Char × List Char × List Char × List Char) :=
  match l2 with
  | c :: l3 =>
    if isQuoteChar c then
      (cssBackSearch (l3.takeWhile cssValChar).reverse (l3.dropWhile cssValChar)).map
        (fun r => ([c], r.1, r.2.1, r.2.2))
    else
      (cssBackSearch (l2.takeWhile cssValChar).reverse (l2.dropWhile cssValChar)).map
        (fun r => (([] : List Char), r.1, r.2.1, r.2.2))
  | [] => none

/-- Backtracking over the greedy `\s*` after `url(` (its spaces can also
be absorbed by the value class, so a shorter space run must be retried):
`revSp` is the reversed still-consumed space run, `tail` the text after
it. -/
def cssSpaceSearch : List Char → List Char →
    Option (List Char × List Char × List Char × List Char)
  | [], tail => cssQuoteClass tail
  | s :: revSp, tail =>
    match cssQuoteClass tail with
    | some res => some res
    | none => cssSpaceSearch revSp (s :: tail)

/-- Leftmost-first matcher for the CSS pattern
`url\(\s*(["']?)([^"')]+)(["']?)\s*\)` together with the replacement
logic of src/rewrite.go lines 96-109: on resolution success the whole
construct becomes `url(<quote><origin>/<address>?browse=1<quote>)` with
the opening quote reused on both sides; on failure the original match is
emitted unchanged. -/
def tryCssUrl (p : List Char → Option (List Char)) (o : List Char)
    (l : List Char) : Option (List Char × Nat) :=
  if cssUrlLit.isPrefixOf l then
    let l1 := l.drop 4
    match cssSpaceSearch (l1.takeWhile isSpaceChar).reverse (l1.dropWhile isSpaceChar) with
    | some (oq, v, _cq, rest) =>
      let n := l.length - rest.length
      match p v with
      | some r =>
        some (cssUrlLit ++ oq ++ o ++ ['/'] ++ encodeURLSeg (utf8Bytes r) ++
          browseQL ++ oq ++ [')'], n)
      | none => some (l.take n, n)
    | none => none
  else none

/-- Leftmost-first matcher for the CSS pattern
`@import\s+(["'])([^"']+)(["'])` with the replacement logic of
src/rewrite.go lines 112-126 (the replacement always uses a single space
and the opening quote on both sides). -/
def tryCssImport (p : List Char → Option (List Char)) (o : List Char)
    (l : List Char) : Option (List Char × Nat) :=
  if cssImpLit.isPrefixOf l then
    let l1 := l.drop 7
    if l1.takeWhile isSpaceChar = [] then none
    else
      match l1.dropWhile isSpaceChar with
      | q :: l2 =>
        if isQuoteChar q then
          let run := l2.takeWhile (fun c => !(isQuoteChar c))
          match l2.dropWhile (fun c => !(isQuoteChar c)) with
          | _cq :: rest =>
            if run = [] then none
            else
              let n := l.length - rest.length
              match p run with
              | some r =>
                some (cssImpLit ++ [' '] ++ [q] ++ o ++ ['/'] ++
                  encodeURLSeg (utf8Bytes r) ++ browseQL ++ [q], n)
              | none => some (l.take n, n)
          | [] => none
        else none
      | [] => none
  else none

/-- The part of the absolute-literal JS matcher after the opening quote
`c` and a scheme prefix of length `k` have been recognised in `rest`: the
greedy `[^"']+` content run, the closing quote, and the replacement
logic. -/
def tryJsAbsTail (p : List Char → Option (List Char)) (o : List Char)
    (c : Char) (rest : List Char) (k : Nat) : Option (List Char × Nat) :=
  let afterScheme := rest.drop k
  let run := afterScheme.takeWhile (fun c2 => !(isQuoteChar c2))
  if run = [] then none
  else
    match afterScheme.dropWhile (fun c2 => !(isQuoteChar c2)) with
    | q2 :: after2 =>
      let content := rest.take k ++ run
      let n := (c :: rest).length - after2.length
      match p content with
      | some r =>
        some (c :: (o ++ ['/'] ++ encodeURLSeg (utf8Bytes r) ++
          browseQL ++ [q2]), n)
      | none => some ((c :: rest).take n, n)
    | [] => none

/-- Leftmost-first matcher for the JS pattern
`(["'])(https?://[^"']+)(["'])` with the replacement logic of
src/rewrite.go lines 136-151 (open and close quotes preserved
separately; the two scheme alternatives are mutually exclusive
prefixes). -/
def tryJsAbs (p : List Char → Option (List Char)) (o : List Char)
    (l : List Char) : Option (List Char × Nat) :=
  match l with
  | c :: rest =>
    if isQuoteChar c then
      if ("https://".toList).isPrefixOf rest then tryJsAbsTail p o c rest 8
      else if ("http://".toList).isPrefixOf rest then tryJsAbsTail p o c rest 7
      else none
    else none
  | [] => none

/-- `\.{1,2}\/`: one or two dots followed by a slash, longest first. -/
def dotSlash (l : List Char) : Option (List Char × List Char) :=
  if ("../".toList).isPrefixOf l then some ("../".toList, l.drop 3)
  else if ("./".toList).isPrefixOf l then some ("./".toList, l.drop 2)
  else none

/-- Leftmost-first matcher for the JS pattern
`import\(\s*(["'])(\.{1,2}\/[^"']+)(["'])` with the replacement logic of
src/rewrite.go lines 154-170 (the closing parenthesis is outside the
match). -/
def tryJsDynImport (p : List Char → Option (List Char)) (o : List Char)
    (l : List Char) : Option (List Char × Nat) :=
  if jsDynImpLit.isPrefixOf l then
    match (l.drop 7).dropWhile isSpaceChar with
    | q :: l2 =>
      if isQuoteChar q then
        match dotSlash l2 with
        | some (dots, l3) =>
          let run := l3.takeWhile (fun c => !(isQuoteChar c))
          if run = [] then none
          else
            match l3.dropWhile (fun c => !(isQuoteChar c)) with
            | cq :: rest =>
              let n := l.length - rest.length
              match p (dots ++ run) with
              | some r =>
                some (jsDynImpLit ++ [q] ++ o ++ ['/'] ++
                  encodeURLSeg (utf8Bytes r) ++ browseQL ++ [cq], n)
              | none => some (l.take n, n)
            | [] => none
        | none => none
      else none
    | [] => none
  else none

/-- Leftmost-first matcher for the JS pattern
`from\s*(["'])(\.{1,2}\/[^"']+)(["'])` with the replacement logic of
src/rewrite.go lines 174-188 (the replacement always inserts one space
after `from`). -/
def tryJsFrom (p : List Char → Option (List Char)) (o : List Char)
    (l : List Char) : Option (List Char × Nat) :=
  if jsFromLit.isPrefixOf l then
    match (l.drop 4).dropWhile isSpaceChar with
    | q :: l2 =>
      if isQuoteChar q then
        match dotSlash l2 with
        | some (dots, l3) =>
          let run := l3.takeWhile (fun c => !(isQuoteChar c))
          if run = [] then none
          else
            match l3.dropWhile (fun c => !(isQuoteChar c)) with
            | cq :: rest =>
              let n := l.length - rest.length
              match p (dots ++ run) with
              | some r =>
                some (jsFromLit ++ [' '] ++ [q] ++ o ++ ['/'] ++
                  encodeURLSeg (utf8Bytes r) ++ browseQL ++ [cq], n)
              | none => some (l.take n, n)
            | [] => none
        | none => none
      else none
    | [] => none
  else none

/-- Leftmost-first matcher for the JS pattern
`URL\(\s*(["'])(\/[^"']*)(["'])\s*\)` with the replacement logic of
src/rewrite.go lines 191-201: the origin is prepended to the absolute
path without going through the codec. -/
def tryJsUrlFn (o : List Char) (l : List Char) : Option (List Char × Nat) :=
  if jsUrlFnLit.isPrefixOf l then
    match (l.drop 4).dropWhile isSpaceChar with
    | q :: l2 =>
      if isQuoteChar q then
        match l2 with
        | s :: l3 =>
          if s = '/' then
            let run := l3.takeWhile (fun c => !(isQuoteChar c))
            match l3.dropWhile (fun c => !(isQuoteChar c)) with
            | cq :: rest1 =>
              match rest1.dropWhile isSpaceChar with
              | c2 :: rest2 =>
                if c2 = ')' then
                  let n := l.length - rest2.length
                  some (jsUrlFnLit ++ [q] ++ o ++ (s :: run) ++ [cq] ++ [')'], n)
                else none
              | [] => none
            | [] => none
          else none
        | [] => none
      else none
    | [] => none
  else none

/-- Failure modes of a rewriter (`rewriteHTML` can fail when the external
parser or renderer does). -/
inductive RewriteError where
  | parseFailed
  | renderFailed
deriving Repr, DecidableEq

/-- The `url(...)` substitution pass of `rewriteCSS` (src/rewrite.go
lines 95-109). -/
def cssUrlPass (p : List Char → Option (List Char)) (o : List Char)
    (s : List Char) : List Char := scanWith (tryCssUrl p o) s

/-- The `@import` substitution pass of `rewriteCSS` (src/rewrite.go
lines 112-126). -/
def cssImportPass (p : List Char → Option (List Char)) (o : List Char)
    (s : List Char) : List Char := scanWith (tryCssImport p o) s

/-- `rewriteCSS` (src/rewrite.go lines 91-129): the `url(...)` pass, then
the `@import` pass on its output; the error result is always `nil`. -/
def rewriteCSS (p : List Char → Option (List Char)) (o : List Char)
    (s : List Char) : Except RewriteError (List Char) :=
  .ok (cssImportPass p o (cssUrlPass p o s))

/-- Pass 1 of `rewriteJS` (src/rewrite.go lines 136-151): absolute
`http(s)://` string literals. -/
def jsAbsPass (p : List Char → Option (List Char)) (o : List Char)
    (s : List Char) : List Char := scanWith (tryJsAbs p o) s

/-- Pass 2 of `rewriteJS` (src/rewrite.go lines 154-170): dynamic imports
of relative paths. -/
def jsDynImportPass (p : List Char → Option (List Char)) (o : List Char)
    (s : List Char) : List Char := scanWith (tryJsDynImport p o) s

/-- Pass 3 of `rewriteJS` (src/rewrite.go lines 174-188): static import
`from` clauses with relative paths. -/
def jsFromPass (p : List Char → Option (List Char)) (o : List Char)
    (s : List Char) : List Char := scanWith (tryJsFrom p o) s

/-- Pass 4 of `rewriteJS` (src/rewrite.go lines 191-201): `URL("/...")`
calls. -/
def jsUrlFnPass (o : List Char) (s : List Char) : List Char :=
  scanWith (tryJsUrlFn o) s

/-- `rewriteJS` (src/rewrite.go lines 132-204): the four passes in
sequence over the evolving text; the error result is always `nil`. -/
def rewriteJS (p : List Char → Option (List Char)) (o : List Char)
    (s : List Char) : Except RewriteError (List Char) :=
  .ok (jsUrlFnPass o (jsFromPass p o (jsDynImportPass p o (jsAbsPass p o s))))

/-- A node of the parsed HTML document, mirroring `html.Node` from
`golang.org/x/net/html` as far as the traversal of src/rewrite.go uses
it: element nodes carry a tag (`Data`), attributes (`Attr` key/value
pairs; keys are lowercased by the parser) and children; text nodes carry
their data; `other` stands for the remaining node types (document,
doctype, comment), into whose children the traversal also recurses. -/
inductive HNode where
  | text (data : List Char)
  | element (tag : List Char) (attrs : List (List Char × List Char))
      (children : List HNode)
  | other (children : List HNode)

/-- The `rewriteAttrs` set of src/rewrite.go lines 24-29, looked up with
`strings.ToLower(attr.Key)`. -/
def isRewriteAttrKey (k : List Char) : Bool :=
  lowerL k = "href".toList || lowerL k = "src".toList ||
  lowerL k = "action".toList || lowerL k = "formaction".toList

/-- The per-attribute rewrite of src/rewrite.go lines 60-73: attributes
outside the rewrite set and `data:` values are untouched; otherwise the
value is resolved against the base (`p`, modelling `base.Parse` composed
with `.String()`) and on success replaced by
`<origin>/<address>?browse=1`; on resolution failure it is untouched. -/
def rewriteAttrVal (p : List Char → Option (List Char)) (o : List Char)
    (k v : List Char) : List Char :=
  if isRewriteAttrKey k then
    if ("data:".toList).isPrefixOf v then v
    else
      match p v with
      | some r => o ++ ['/'] ++ encodeURLSeg (utf8Bytes r) ++ browseQL
      | none => v
  else v

/-- The inline-`<script>` test of src/rewrite.go lines 38-44: true when
some attribute key lowercases to `src`. -/
def hasSrcAttr (attrs : List (List Char × List Char)) : Bool :=
  attrs.any (fun a => lowerL a.1 = "src".toList)

/-- Applying `rewriteJS` to an inline script's text (src/rewrite.go lines
47-56); the error branch only logs and keeps the original text. -/
def jsRewriteText (p : List Char → Option (List Char)) (o : List Char)
    (s : List Char) : List Char :=
  match rewriteJS p o s with
  | .ok t => t
  | .error _ => s

/-- The action of src/rewrite.go lines 45-57 on one child of an inline
`<script>` element (`flag` true): a text child's data goes through the JS
rewriter; other children are untouched.  The recursion of the traversal
is the identity on text nodes, so applying this step after the recursion
gives the same tree the Go code builds by mutating the text first. -/
def scriptTextStep (p : List Char → Option (List Char)) (o : List Char)
    (flag : Bool) : HNode → HNode
  | .text s => .text (if flag then jsRewriteText p o s else s)
  | .element t2 a2 c2 => .element t2 a2 c2
  | .other c2 => .other c2

/-- The recursive `traverse` of src/rewrite.go lines 32-79, written as a
function from the input tree to the mutated tree: element nodes get their
attributes rewritten pointwise and, for inline `<script>` elements, their
text children rewritten with the JS rewriter; the traversal recurses into
all children. -/
def rewriteNode (p : List Char → Option (List Char)) (o : List Char) :
    HNode → HNode
  | .text s => .text s
  | .other cs => .other (cs.attach.map (fun c => rewriteNode p o c.1))
  | .element tag attrs cs =>
    .element tag (attrs.map (fun a => (a.1, rewriteAttrVal p o a.1 a.2)))
      ((cs.attach.map (fun c => rewriteNode p o c.1)).map
        (scriptTextStep p o (tag = ("script".toList) && !(hasSrcAttr attrs))))
termination_by n => sizeOf n
decreasing_by
  · have := List.sizeOf_lt_of_mem c.2
    simp only [HNode.other.sizeOf_spec]
    omega
  · have := List.sizeOf_lt_of_mem c.2
    simp only [HNode.element.sizeOf_spec]
    omega

/-- `rewriteHTML` (src/rewrite.go lines 17-88): parse via the external
parser (`hp` models `html.Parse`), traverse/mutate, render via the
external renderer (`hr` models `html.Render`); either external step may
fail. -/
def rewriteHTML (hp : List Char → Option HNode) (hr : HNode → Option (List Char))
    (p : List Char → Option (List Char)) (o : List Char) (body : List Char) :
    Except RewriteError (List Char) :=
  match hp body with
  | none => .error .parseFailed
  | some doc =>
    match hr (rewriteNode p o doc) with
    | none => .error .renderFailed
    | some out => .ok out

/-- The fields of the parsed upstream URL the handler inspects
(`url.Parse` result). -/
structure URLParts where
  scheme : List Char
  host : List Char

/-- An upstream response as the handler sees it: status, headers, the
body bytes the transport would deliver, and whether reading the body to
the end (`io.ReadAll`) succeeds. -/
structure UpResponse where
  statusCode : Nat
  headers : List HdrEntry
  bodyStream : List Char
  readOk : Bool

/-- The external collaborators of one request, as oracles:
`parseURL` models `url.Parse` plus its error (`none`), `resolveRef`
models `parsedURL.Parse(ref).String()` for the request's target,
`htmlParse`/`htmlRender` model `html.Parse`/`html.Render`, `newReqOk`
models `http.NewRequest` succeeding and `doReq` models
`http.DefaultClient.Do` (`none` is a transport error). -/
structure Env where
  parseURL : List Nat → Option URLParts
  resolveRef : List Char → Option (List Char)
  htmlParse : List Char → Option HNode
  htmlRender : HNode → Option (List Char)
  newReqOk : Bool
  doReq : Option UpResponse

/-- The inbound request as the handler reads it: its URL path, whether
the `browse` query parameter is non-empty, its headers, host and whether
the connection carries TLS. -/
structure InRequest where
  path : List Char
  browse : Bool
  headers : List HdrEntry
  host : List Char
  tls : Bool

/-- The client-visible result of one request: either a proxy-generated
error page (`http.Error` with its status and message) or a proxied
response carrying the upstream status, the copied headers and the body
written. -/
inductive Outcome where
  | httpError (status : Nat) (msg : List Char)
  | proxied (status : Nat) (headers : List HdrEntry) (body : List Char)

/-- The status code the client sees. -/
def Outcome.status : Outcome → Nat
  | .httpError s _ => s
  | .proxied s _ _ => s

/-- The status of a proxy-generated error, `none` for a proxied
response. -/
def Outcome.errStatus : Outcome → Option Nat
  | .httpError s _ => some s
  | .proxied _ _ _ => none

/-- `strings.TrimPrefix(path, "/")`: drop one leading slash if
present. -/
def stripLeadingSlash (l : List Char) : List Char :=
  if ("/".toList).isPrefixOf l then l.drop 1 else l

/-- Whether a rewriter application failed (only the HTML rewriter ever
can). -/
def rwFailed : Except RewriteError (List Char) → Bool
  | .error _ => true
  | .ok _ => false

/-- The `Content-Type` header key. -/
def ctKeyL : List Char := "Content-Type".toList

/-- The `https://` scheme of the proxy origin. -/
def schemeHttpsL : List Char := "https://".toList

/-- The `http://` scheme of the proxy origin. -/
def schemeHttpL : List Char := "http://".toList

/-- `proxyHandler` of src/unnamed/part_000 lines 12-147: resolve the
encoded target (400 on failure), build and send the outbound request
(500 on failure), then classify the response and either rewrite the
buffered body (500 if reading or rewriting fails) or stream it through,
passing the upstream status code along. -/
def proxyHandler (env : Env) (r : InRequest) : Outcome :=
  let enc := stripLeadingSlash r.path
  if enc = [] then .httpError 400 ("Missing encoded URL".toList)
  else
    match decodeURLSeg enc with
    | none => .httpError 400 ("Invalid base64 encoding".toList)
    | some bs =>
      match env.parseURL bs with
      | none => .httpError 400 ("Invalid upstream URL".toList)
      | some u =>
        if u.scheme = [] ∨ u.host = [] then
          .httpError 400 ("Invalid upstream URL".toList)
        else if !env.newReqOk then
          .httpError 500 ("Failed to create upstream request".toList)
        else
          match env.doReq with
          | none => .httpError 500 ("Upstream request failed".toList)
          | some resp =>
            let origin := (if r.tls then schemeHttpsL else schemeHttpL) ++ r.host
            let respH := copyRespHeaders r.browse resp.headers
            match classify (headerGet ctKeyL resp.headers) r.browse with
            | .rewriteHtml =>
              if !resp.readOk then .httpError 500 ("Error reading upstream HTML".toList)
              else
                match rewriteHTML env.htmlParse env.htmlRender env.resolveRef origin
                    resp.bodyStream with
                | .error _ => .httpError 500 ("Error rewriting HTML".toList)
                | .ok rw => .proxied resp.statusCode respH rw
            | .rewriteCss =>
              if !resp.readOk then .httpError 500 ("Error reading upstream CSS".toList)
              else
                match rewriteCSS env.resolveRef origin resp.bodyStream with
                | .error _ => .httpError 500 ("Error rewriting CSS".toList)
                | .ok rw => .proxied resp.statusCode respH rw
            | .rewriteJs =>
              if !resp.readOk then .httpError 500 ("Error reading upstream JavaScript".toList)
              else
                match rewriteJS env.resolveRef origin resp.bodyStream with
                | .error _ => .httpError 500 ("Error rewriting JavaScript".toList)
                | .ok rw => .proxied resp.statusCode respH rw
            | .passThrough => .proxied resp.statusCode respH resp.bodyStream

/-- The outbound request's headers, as built by the copy loop before the
request is sent. -/
def outboundHeaders (r : InRequest) : List HdrEntry :=
  copyReqHeaders r.browse r.headers

/-- Structural induction over `HNode` with membership hypotheses for
children. -/
theorem hnodeInduction (motive : HNode → Prop)
    (ht : ∀ s, motive (.text s))
    (he : ∀ t a cs, (∀ c ∈ cs, motive c) → motive (.element t a cs))
    (ho : ∀ cs, (∀ c ∈ cs, motive c) → motive (.other cs)) :
    ∀ n, motive n
  | .text s => ht s
  | .element t a cs => he t a cs (fun c _ => hnodeInduction motive ht he ho c)
  | .other cs => ho cs (fun c _ => hnodeInduction motive ht he ho c)
termination_by n => sizeOf n
decreasing_by
  · have := List.sizeOf_lt_of_mem (by assumption : c ∈ cs)
    simp only [HNode.element.sizeOf_spec]
    omega
  · have := List.sizeOf_lt_of_mem (by assumption : c ∈ cs)
    simp only [HNode.other.sizeOf_spec]
    omega

theorem rewriteNode_element (p : List Char → Option (List Char)) (o : List Char)
    (t : List Char) (a : List (List Char × List Char)) (cs : List HNode) :
    rewriteNode p o (.element t a cs) =
      .element t (a.map fun x => (x.1, rewriteAttrVal p o x.1 x.2))
        ((cs.map (rewriteNode p o)).map
          (scriptTextStep p o (t = ("script".toList) && !(hasSrcAttr a)))) := by
  rw [rewriteNode]
  rw [List.attach_map_val cs (rewriteNode p o)]

theorem rewriteNode_other (p : List Char → Option (List Char)) (o : List Char)
    (cs : List HNode) :
    rewriteNode p o (.other cs) = .other (cs.map (rewriteNode p o)) := by
  rw [rewriteNode]
  rw [List.attach_map_val cs (rewriteNode p o)]

/-- What C6 requires of one attribute: the key is preserved, and the
value is preserved whenever the (lowercased) key is outside the rewrite
set or the value starts with `data:`. -/
def attrScopeOK (x y : List Char × List Char) : Prop :=
  y.1 = x.1 ∧
    ((isRewriteAttrKey x.1 = false ∨ ("data:".toList).isPrefixOf x.2 = true) →
      y.2 = x.2)

/-- What C6 requires of the whole tree: identical shape and tags, and
every attribute satisfying `attrScopeOK`; text data is unconstrained. -/
inductive ScopeOK : HNode → HNode → Prop
  | text : ∀ s s2, ScopeOK (.text s) (.text s2)
  | element : ∀ t a a2 cs cs2, List.Forall₂ attrScopeOK a a2 →
      List.Forall₂ ScopeOK cs cs2 →
      ScopeOK (.element t a cs) (.element t a2 cs2)
  | other : ∀ cs cs2, List.Forall₂ ScopeOK cs cs2 →
      ScopeOK (.other cs) (.other cs2)

theorem attrScopeOK_rewrite (p : List Char → Option (List Char)) (o : List Char)
    (x : List Char × List Char) :
    attrScopeOK x (x.1, rewriteAttrVal p o x.1 x.2) := by
  refine ⟨rfl, fun h => ?_⟩
  unfold rewriteAttrVal
  rcases h with h | h
  · rw [h]; simp
  · rw [h]
    rcases hk : isRewriteAttrKey x.1 with _ | _ <;> simp

/-- `scriptTextStep` preserves `ScopeOK` on the right (it only changes
text data). -/
theorem scopeOK_scriptTextStep (p : List Char → Option (List Char))
    (o : List Char) (flag : Bool) {a b : HNode} (h : ScopeOK a b) :
    ScopeOK a (scriptTextStep p o flag b) := by
  cases h with
  | text s s2 => exact ScopeOK.text _ _
  | element t a1 a2 cs1 cs2 h1 h2 => exact ScopeOK.element t a1 a2 cs1 cs2 h1 h2
  | other cs1 cs2 h1 => exact ScopeOK.other cs1 cs2 h1

/-- C6: for every parsed HTML body and rewrite context, the tree the HTML
rewriter produces has the same shape and tags, preserves every attribute
key, and leaves an attribute's value untouched whenever the attribute is
not one of `href`/`src`/`action`/`formaction` (case-insensitively) or its
value begins with `data:`. -/
theorem c6_html_rewrite_scope (p : List Char → Option (List Char))
    (o : List Char) (n : HNode) : ScopeOK n (rewriteNode p o n) := by
  induction n using hnodeInduction with
  | ht s => rw [rewriteNode]; exact ScopeOK.text s s
  | he t a cs ih =>
    rw [rewriteNode_element]
    refine ScopeOK.element t a _ cs _ ?_ ?_
    · rw [List.forall₂_map_right_iff]
      rw [List.forall₂_same]
      intro x _
      exact attrScopeOK_rewrite p o x
    · rw [List.forall₂_map_right_iff, List.forall₂_map_right_iff]
      rw [List.forall₂_same]
      intro c hc
      exact scopeOK_scriptTextStep p o _ (ih c hc)
  | ho cs ih =>
    rw [rewriteNode_other]
    refine ScopeOK.other cs _ ?_
    rw [List.forall₂_map_right_iff]
    rw [List.forall₂_same]
    intro c hc
    exact ih c hc

/-- C10: whenever an attribute's lowercased key is in the rewrite set,
its value does not begin with the literal prefix `data:` and the value
resolves against the base (`p v = some r`, which for Go's `url.Parse`
also covers non-HTTP schemes such as `mailto:` or `javascript:`), the
HTML rewriter replaces the value with `<origin>/<address>?browse=1`;
`data:` is the only scheme the code exempts. -/
theorem c10_data_only_exempt_scheme (p : List Char → Option (List Char))
    (o k v r : List Char) (hk : isRewriteAttrKey k = true)
    (hd : ("data:".toList).isPrefixOf v = false) (hp : p v = some r) :
    rewriteAttrVal p o k v = o ++ ['/'] ++ encodeURLSeg (utf8Bytes r) ++ browseQL := by
  unfold rewriteAttrVal
  rw [hk, hd, hp]
  simp [List.append_assoc]

/-- Witness for C10 at the `mailto:` value `mailto:a@b` on an `href`
attribute, with the resolver returning the reference itself (what
`base.Parse` does on an absolute reference). -/
theorem c10_witness :
    rewriteAttrVal (fun s => some s) ("http://p".toList) ("href".toList)
        ("mailto:a@b".toList) =
      ("http://p".toList) ++ ['/'] ++ encodeURLSeg (utf8Bytes ("mailto:a@b".toList)) ++
        browseQL :=
  c10_data_only_exempt_scheme (fun s => some s) ("http://p".toList)
    ("href".toList) ("mailto:a@b".toList) ("mailto:a@b".toList)
    (by decide) (by decide) rfl

theorem scanWith_nil (f : List Char → Option (List Char × Nat)) :
    scanWith f [] = [] := by
  rw [scanWith]

theorem scanWith_cons_none (f : List Char → Option (List Char × Nat))
    (c : Char) (rest : List Char) (h : f (c :: rest) = none) :
    scanWith f (c :: rest) = c :: scanWith f rest := by
  rw [scanWith, h]

theorem scanWith_cons_some (f : List Char → Option (List Char × Nat))
    (c : Char) (rest emit : List Char) (n : Nat)
    (h : f (c :: rest) = some (emit, n)) :
    scanWith f (c :: rest) = emit ++ scanWith f (rest.drop (n - 1)) := by
  rw [scanWith, h]

/-- Scanning passes over a region where the matcher fires at no
position. -/
theorem scanWith_append_none (f : List Char → Option (List Char × Nat)) :
    ∀ (a rest : List Char),
      (∀ i, i < a.length → f (a.drop i ++ rest) = none) →
      scanWith f (a ++ rest) = a ++ scanWith f rest
  | [], rest, _ => by simp
  | c :: a2, rest, h => by
    have h0 := h 0 (by simp)
    simp only [List.drop_zero] at h0
    rw [List.cons_append, scanWith_cons_none f c (a2 ++ rest) h0]
    rw [scanWith_append_none f a2 rest (fun i hi => by
      have hs := h (i + 1) (by simp only [List.length_cons]; omega)
      simpa using hs)]
    rfl

theorem scanWith_eq_self (f : List Char → Option (List Char × Nat))
    (a : List Char) (h : ∀ i, i < a.length → f (a.drop i) = none) :
    scanWith f a = a := by
  have := scanWith_append_none f a [] (fun i hi => by simpa using h i hi)
  simpa [scanWith_nil] using this

theorem takeWhile_append_eq (P : Char → Bool) :
    ∀ (v : List Char) (d : Char) (rest : List Char),
      (∀ c ∈ v, P c = true) → P d = false →
      (v ++ d :: rest).takeWhile P = v ∧ (v ++ d :: rest).dropWhile P = d :: rest
  | [], d, rest, _, hd => by simp [List.takeWhile_cons, List.dropWhile_cons, hd]
  | c :: v2, d, rest, hv, hd => by
    have hc := hv c (List.mem_cons_self c v2)
    have ih := takeWhile_append_eq P v2 d rest
      (fun x hx => hv x (List.mem_cons_of_mem _ hx)) hd
    simp [List.takeWhile_cons, List.dropWhile_cons, hc, ih.1, ih.2]

theorem isPrefixOf_append_self (l t : List Char) :
    l.isPrefixOf (l ++ t) = true :=
  List.isPrefixOf_iff_prefix.mpr (List.prefix_append l t)

theorem tryCssUrl_none_of_not_lit (p : List Char → Option (List Char))
    (o l : List Char) (h : cssUrlLit.isPrefixOf l = false) :
    tryCssUrl p o l = none := by
  simp [tryCssUrl, h]

theorem tryCssImport_none_of_head (p : List Char → Option (List Char))
    (o : List Char) (c : Char) (t : List Char) (h : c ≠ '@') :
    tryCssImport p o (c :: t) = none := by
  have hb : ('@' == c) = false := beq_eq_false_iff_ne.mpr (fun he => h he.symm)
  have hpf : cssImpLit.isPrefixOf (c :: t) = false := by
    simp [cssImpLit, List.isPrefixOf, hb]
  simp [tryCssImport, hpf]

theorem tryJsAbs_none_of_head (p : List Char → Option (List Char))
    (o : List Char) (c : Char) (t : List Char) (h : isQuoteChar c = false) :
    tryJsAbs p o (c :: t) = none := by
  simp [tryJsAbs, h]

/-- The `@import` pass copies any region free of `@` unchanged. -/
theorem cssImportScan_append (p : List Char → Option (List Char))
    (o : List Char) (a rest : List Char) (ha : ∀ c ∈ a, c ≠ '@') :
    cssImportPass p o (a ++ rest) = a ++ cssImportPass p o rest := by
  show scanWith (tryCssImport p o) (a ++ rest) =
    a ++ scanWith (tryCssImport p o) rest
  refine scanWith_append_none _ a rest (fun i hi => ?_)
  obtain ⟨c, t, hct⟩ : ∃ c t, a.drop i = c :: t := by
    cases hd : a.drop i with
    | nil =>
      exfalso
      have := List.drop_eq_nil_iff.mp hd
      omega
    | cons c t => exact ⟨c, t, rfl⟩
  rw [hct, List.cons_append]
  refine tryCssImport_none_of_head p o c _ (ha c ?_)
  exact List.drop_subset i a (hct ▸ List.mem_cons_self c t)

/-- The absolute-literal JS pass copies any region free of quotes
unchanged. -/
theorem jsAbsScan_append (p : List Char → Option (List Char))
    (o : List Char) (a rest : List Char)
    (ha : ∀ c ∈ a, isQuoteChar c = false) :
    jsAbsPass p o (a ++ rest) = a ++ jsAbsPass p o rest := by
  show scanWith (tryJsAbs p o) (a ++ rest) = a ++ scanWith (tryJsAbs p o) rest
  refine scanWith_append_none _ a rest (fun i hi => ?_)
  obtain ⟨c, t, hct⟩ : ∃ c t, a.drop i = c :: t := by
    cases hd : a.drop i with
    | nil =>
      exfalso
      have := List.drop_eq_nil_iff.mp hd
      omega
    | cons c t => exact ⟨c, t, rfl⟩
  rw [hct, List.cons_append]
  refine tryJsAbs_none_of_head p o c _ (ha c ?_)
  exact List.drop_subset i a (hct ▸ List.mem_cons_self c t)

theorem cssValChar_not_quote {c : Char} (h : cssValChar c = true) :
    isQuoteChar c = false := by
  rcases hq : isQuoteChar c with _ | _
  · rfl
  · rw [cssValChar, hq] at h
    simp at h

theorem quote_cssValChar {q : Char} (h : isQuoteChar q = true) :
    cssValChar q = false := by
  simp [cssValChar, h]

theorem quote_not_space {q : Char} (h : isQuoteChar q = true) :
    isSpaceChar q = false := by
  have : q = dqChar ∨ q = sqChar := by simpa [isQuoteChar] using h
  rcases this with rfl | rfl <;> decide

theorem takeWhile_head_false (P : Char → Bool) (x : Char) (t : List Char)
    (h : P x = false) :
    (x :: t).takeWhile P = [] ∧ (x :: t).dropWhile P = x :: t := by
  simp [List.takeWhile_cons, List.dropWhile_cons, h]

theorem cssSpacesThenParen_rparen (b : List Char) :
    cssSpacesThenParen (')' :: b) = some b := by
  simp [cssSpacesThenParen, List.dropWhile_cons, isSpaceChar]

theorem cssTailMatch_quote (q : Char) (b : List Char) (hq : isQuoteChar q = true) :
    cssTailMatch (q :: ')' :: b) = some ([q], b) := by
  simp [cssTailMatch, hq, cssSpacesThenParen_rparen]

theorem cssTailMatch_rparen (b : List Char) :
    cssTailMatch (')' :: b) = some ([], b) := by
  simp [cssTailMatch, show isQuoteChar ')' = false by decide,
    cssSpacesThenParen_rparen]

theorem cssBackSearch_of_tail (v tail cq r : List Char) (hv : v ≠ [])
    (ht : cssTailMatch tail = some (cq, r)) :
    cssBackSearch v.reverse tail = some (v, cq, r) := by
  obtain ⟨x, rr, hx⟩ : ∃ x rr, v.reverse = x :: rr := by
    cases hrev : v.reverse with
    | nil =>
      exact absurd (by simpa using congrArg List.reverse hrev) hv
    | cons x rr => exact ⟨x, rr, rfl⟩
  rw [hx]
  unfold cssBackSearch
  rw [ht]
  have : (x :: rr).reverse = v := by rw [← hx, List.reverse_reverse]
  rw [this]

theorem cssQuoteClass_quoted (q : Char) (v b : List Char)
    (hq : isQuoteChar q = true) (hv : ∀ c ∈ v, cssValChar c = true)
    (hne : v ≠ []) :
    cssQuoteClass (q :: (v ++ q :: ')' :: b)) = some ([q], v, [q], b) := by
  have htw := takeWhile_append_eq cssValChar v q (')' :: b) hv (quote_cssValChar hq)
  simp only [cssQuoteClass]
  rw [if_pos hq]
  rw [htw.1, htw.2]
  rw [cssBackSearch_of_tail v (q :: ')' :: b) [q] b hne (cssTailMatch_quote q b hq)]
  rfl

theorem cssQuoteClass_unquoted (v0 : Char) (v' b : List Char)
    (hv : ∀ c ∈ (v0 :: v'), cssValChar c = true) :
    cssQuoteClass ((v0 :: v') ++ ')' :: b) = some ([], v0 :: v', [], b) := by
  have h0 := hv v0 (List.mem_cons_self v0 v')
  have htw := takeWhile_append_eq cssValChar (v0 :: v') ')' b hv (by decide)
  rw [List.cons_append]
  simp only [cssQuoteClass]
  rw [if_neg (by rw [cssValChar_not_quote h0]; exact fun h => nomatch h)]
  rw [← List.cons_append, htw.1, htw.2]
  rw [cssBackSearch_of_tail (v0 :: v') (')' :: b) [] b (by exact fun h => nomatch h)
    (cssTailMatch_rparen b)]
  rfl

theorem drop_cssUrlLit (X : List Char) : (cssUrlLit ++ X).drop 4 = X := by
  have h4 : cssUrlLit.length = 4 := by decide
  rw [← h4, List.drop_left]

/-- Evaluation of the `url(...)` matcher at a quoted construct
`url(<q><v><q>)` followed by arbitrary text. -/
theorem tryCssUrl_eval_quoted (p : List Char → Option (List Char))
    (o : List Char) (q : Char) (v b : List Char)
    (hq : isQuoteChar q = true) (hv : ∀ c ∈ v, cssValChar c = true)
    (hne : v ≠ []) :
    tryCssUrl p o (cssUrlLit ++ (q :: (v ++ q :: ')' :: b))) =
      some ((match p v with
        | some r => cssUrlLit ++ [q] ++ o ++ ['/'] ++ encodeURLSeg (utf8Bytes r) ++
            browseQL ++ [q] ++ [')']
        | none => cssUrlLit ++ (q :: (v ++ q :: [')']))),
        7 + v.length) := by
  have hpre := isPrefixOf_append_self cssUrlLit (q :: (v ++ q :: ')' :: b))
  have hdrop := drop_cssUrlLit (q :: (v ++ q :: ')' :: b))
  have hsp := takeWhile_head_false isSpaceChar q (v ++ q :: ')' :: b)
    (quote_not_space hq)
  unfold tryCssUrl
  rw [hpre]
  simp only [if_true, hdrop, hsp.1, hsp.2, List.reverse_nil]
  have hqc := cssQuoteClass_quoted q v b hq hv hne
  rw [show cssSpaceSearch [] (q :: (v ++ q :: ')' :: b)) =
      cssQuoteClass (q :: (v ++ q :: ')' :: b)) from rfl, hqc]
  have hlen : (cssUrlLit ++ (q :: (v ++ q :: ')' :: b))).length - b.length =
      7 + v.length := by
    simp [cssUrlLit, List.length_append]
    omega
  rcases hp : p v with _ | r
  · simp only [hp, hlen]
    have htake : (cssUrlLit ++ (q :: (v ++ q :: ')' :: b))).take (7 + v.length) =
        cssUrlLit ++ (q :: (v ++ q :: [')'])) := by
      have hsplit : cssUrlLit ++ (q :: (v ++ q :: ')' :: b)) =
          (cssUrlLit ++ (q :: (v ++ q :: [')']))) ++ b := by
        simp [List.append_assoc]
      have hclen : (cssUrlLit ++ (q :: (v ++ q :: [')']))).length = 7 + v.length := by
        simp [cssUrlLit, List.length_append]
        omega
      rw [hsplit, ← hclen, List.take_left]
    rw [htake]
  · simp only [hp, hlen]

/-- Evaluation of the `url(...)` matcher at an unquoted construct
`url(<v>)` followed by arbitrary text. -/
theorem tryCssUrl_eval_unquoted (p : List Char → Option (List Char))
    (o : List Char) (v0 : Char) (v' b : List Char)
    (hv : ∀ c ∈ (v0 :: v'), cssValChar c = true)
    (hsp0 : isSpaceChar v0 = false) :
    tryCssUrl p o (cssUrlLit ++ (v0 :: (v' ++ ')' :: b))) =
      some ((match p (v0 :: v') with
        | some r => cssUrlLit ++ o ++ ['/'] ++ encodeURLSeg (utf8Bytes r) ++
            browseQL ++ [')']
        | none => cssUrlLit ++ (v0 :: (v' ++ [')']))),
        6 + v'.length) := by
  have hpre := isPrefixOf_append_self cssUrlLit (v0 :: (v' ++ ')' :: b))
  have hdrop := drop_cssUrlLit (v0 :: (v' ++ ')' :: b))
  have hsp := takeWhile_head_false isSpaceChar v0 (v' ++ ')' :: b) hsp0
  unfold tryCssUrl
  rw [hpre]
  simp only [if_true, hdrop, hsp.1, hsp.2, List.reverse_nil]
  have hqc := cssQuoteClass_unquoted v0 v' b hv
  rw [List.cons_append] at hqc
  rw [show cssSpaceSearch [] (v0 :: (v' ++ ')' :: b)) =
      cssQuoteClass (v0 :: (v' ++ ')' :: b)) from rfl, hqc]
  have hlen : (cssUrlLit ++ (v0 :: (v' ++ ')' :: b))).length - b.length =
      6 + v'.length := by
    simp [cssUrlLit, List.length_append]
    omega
  rcases hp : p (v0 :: v') with _ | r
  · simp only [hp, hlen]
    have htake : (cssUrlLit ++ (v0 :: (v' ++ ')' :: b))).take (6 + v'.length) =
        cssUrlLit ++ (v0 :: (v' ++ [')'])) := by
      have hsplit : cssUrlLit ++ (v0 :: (v' ++ ')' :: b)) =
          (cssUrlLit ++ (v0 :: (v' ++ [')']))) ++ b := by
        simp [List.append_assoc]
      have hclen : (cssUrlLit ++ (v0 :: (v' ++ [')']))).length = 6 + v'.length := by
        simp [cssUrlLit, List.length_append]
        omega
      rw [hsplit, ← hclen, List.take_left]
    rw [htake]
  · simp only [hp, hlen]
    simp

/-- Scanning a text that begins with a full match: emit the replacement
and continue after the matched construct. -/
theorem scanWith_head_match (f : List Char → Option (List Char × Nat))
    (C b emit : List Char) (hC : C ≠ [])
    (h : f (C ++ b) = some (emit, C.length)) :
    scanWith f (C ++ b) = emit ++ scanWith f b := by
  obtain ⟨c, t, rfl⟩ : ∃ c t, C = c :: t := by
    cases C with
    | nil => exact absurd rfl hC
    | cons c t => exact ⟨c, t, rfl⟩
  rw [List.cons_append] at h ⊢
  rw [scanWith_cons_some f c (t ++ b) emit _ h]
  congr 1
  have hl : (c :: t).length - 1 = t.length := by simp
  rw [hl, List.drop_left]

theorem drop_cssImpLit (X : List Char) : (cssImpLit ++ X).drop 7 = X := by
  have h7 : cssImpLit.length = 7 := by decide
  rw [← h7, List.drop_left]

theorem quote_ne_at {q : Char} (h : isQuoteChar q = true) : q ≠ '@' := by
  have : q = dqChar ∨ q = sqChar := by simpa [isQuoteChar] using h
  rcases this with rfl | rfl <;> decide

/-- Evaluation of the `@import` matcher at a construct
`@import <q><v><q>` (single space) followed by arbitrary text. -/
theorem tryCssImport_eval (p : List Char → Option (List Char))
    (o : List Char) (q : Char) (v b : List Char)
    (hq : isQuoteChar q = true) (hv : ∀ c ∈ v, isQuoteChar c = false)
    (hne : v ≠ []) :
    tryCssImport p o (cssImpLit ++ (' ' :: q :: (v ++ q :: b))) =
      some ((match p v with
        | some r => cssImpLit ++ [' '] ++ [q] ++ o ++ ['/'] ++
            encodeURLSeg (utf8Bytes r) ++ browseQL ++ [q]
        | none => cssImpLit ++ (' ' :: q :: (v ++ [q]))),
        10 + v.length) := by
  have hpre := isPrefixOf_append_self cssImpLit (' ' :: q :: (v ++ q :: b))
  have hdrop := drop_cssImpLit (' ' :: q :: (v ++ q :: b))
  have hv2 : ∀ c ∈ v, (fun c => !(isQuoteChar c)) c = true := by
    intro c hc
    simp [hv c hc]
  have htw := takeWhile_append_eq (fun c => !(isQuoteChar c)) v q b hv2
    (by simp [hq])
  have hqs := quote_not_space hq
  unfold tryCssImport
  rw [hpre]
  simp only [if_true, hdrop]
  rw [List.takeWhile_cons_of_pos (by decide : isSpaceChar ' ' = true)]
  rw [List.dropWhile_cons_of_pos (by decide : isSpaceChar ' ' = true)]
  rw [(takeWhile_head_false isSpaceChar q (v ++ q :: b) hqs).1]
  rw [(takeWhile_head_false isSpaceChar q (v ++ q :: b) hqs).2]
  simp only [reduceCtorEq, if_false, hq, if_true, htw.1, htw.2]
  rw [if_neg hne]
  have hlen : (cssImpLit ++ (' ' :: q :: (v ++ q :: b))).length - b.length =
      10 + v.length := by
    simp [cssImpLit, List.length_append]
    omega
  rcases hp : p v with _ | r
  · simp only [hp, hlen]
    have htake : (cssImpLit ++ (' ' :: q :: (v ++ q :: b))).take (10 + v.length) =
        cssImpLit ++ (' ' :: q :: (v ++ [q])) := by
      have hsplit : cssImpLit ++ (' ' :: q :: (v ++ q :: b)) =
          (cssImpLit ++ (' ' :: q :: (v ++ [q]))) ++ b := by
        simp [List.append_assoc]
      have hclen : (cssImpLit ++ (' ' :: q :: (v ++ [q]))).length = 10 + v.length := by
        simp [cssImpLit, List.length_append]
        omega
      rw [hsplit, ← hclen, List.take_left]
    rw [htake]
  · simp only [hp, hlen]


theorem encodeURLSeg_no_at (bs : List Nat) : ∀ c ∈ encodeURLSeg bs, c ≠ '@' := by
  intro c hc
  have halpha : ∀ x ∈ urlAlphabet, x ≠ '@' := by decide
  rcases encodeURLSeg_chars bs c hc with h | h
  · exact halpha c h
  · subst h; decide

theorem drop_in_region (a rest : List Char) (i : Nat) (hi : i < a.length) :
    (a ++ rest).drop i = a.drop i ++ rest := by
  rw [List.drop_append_eq_append_drop]
  have h0 : i - a.length = 0 := by omega
  rw [h0, List.drop_zero]

/-- The `url(...)` pass skips any region where no position starts with the
literal `url(`. -/
theorem cssUrlScan_append (p : List Char → Option (List Char)) (o : List Char)
    (a rest : List Char)
    (ha : ∀ i, i < a.length →
      cssUrlLit.isPrefixOf ((a ++ rest).drop i) = false) :
    cssUrlPass p o (a ++ rest) = a ++ cssUrlPass p o rest := by
  show scanWith (tryCssUrl p o) (a ++ rest) = a ++ scanWith (tryCssUrl p o) rest
  refine scanWith_append_none _ a rest (fun i hi => ?_)
  refine tryCssUrl_none_of_not_lit p o _ ?_
  have hx := ha i hi
  rwa [drop_in_region a rest i hi] at hx

/-- C7: a `url(...)` or `@import` construct whose value fails to resolve
against the base is left byte-for-byte unmodified by `rewriteCSS`, which
continues with the rest of the document and still returns success.  The
text `a` before the construct is arbitrary so long as it starts no
`url(` match and contains no `@`; the value is a plain (quote-,
parenthesis- and `@`-free) reference. -/
theorem c7_css_bad_reference_left_unmodified :
    (∀ (p : List Char → Option (List Char)) (o a : List Char) (v0 : Char)
        (v' b : List Char),
      (∀ c ∈ (v0 :: v'), cssValChar c = true) →
      (∀ c ∈ (v0 :: v'), c ≠ '@') →
      isSpaceChar v0 = false →
      (∀ c ∈ a, c ≠ '@') →
      (∀ i, i < a.length →
        cssUrlLit.isPrefixOf
          ((a ++ (cssUrlLit ++ (v0 :: (v' ++ ')' :: b)))).drop i) = false) →
      p (v0 :: v') = none →
      rewriteCSS p o (a ++ (cssUrlLit ++ (v0 :: (v' ++ ')' :: b)))) =
        .ok (a ++ (cssUrlLit ++ (v0 :: (v' ++ ')' ::
          cssImportPass p o (cssUrlPass p o b)))))) ∧
    (∀ (p : List Char → Option (List Char)) (o a : List Char) (q : Char)
        (v b : List Char),
      isQuoteChar q = true →
      (∀ c ∈ v, isQuoteChar c = false) →
      v ≠ [] →
      (∀ c ∈ a, c ≠ '@') →
      (∀ i, i < a.length + (10 + v.length) →
        cssUrlLit.isPrefixOf
          ((a ++ (cssImpLit ++ (' ' :: q :: (v ++ q :: b)))).drop i) = false) →
      p v = none →
      rewriteCSS p o (a ++ (cssImpLit ++ (' ' :: q :: (v ++ q :: b)))) =
        .ok (a ++ (cssImpLit ++ (' ' :: q :: (v ++ q ::
          cssImportPass p o (cssUrlPass p o b)))))) := by
  constructor
  · intro p o a v0 v' b hv hat hsp0 ha hpre hp
    have hCb : cssUrlLit ++ (v0 :: (v' ++ ')' :: b)) =
        (cssUrlLit ++ (v0 :: (v' ++ [')']))) ++ b := by
      simp [List.append_assoc]
    have hClen : (cssUrlLit ++ (v0 :: (v' ++ [')']))).length = 6 + v'.length := by
      simp [cssUrlLit, List.length_append]
      omega
    have hstep2 : cssUrlPass p o (cssUrlLit ++ (v0 :: (v' ++ ')' :: b))) =
        (cssUrlLit ++ (v0 :: (v' ++ [')']))) ++ cssUrlPass p o b := by
      rw [hCb]
      show scanWith (tryCssUrl p o) _ = _
      refine scanWith_head_match _ _ b _ (by simp [cssUrlLit]) ?_
      rw [hClen, ← hCb]
      rw [tryCssUrl_eval_unquoted p o v0 v' b hv hsp0]
      simp only [hp]
    have hstep1 : cssUrlPass p o (a ++ (cssUrlLit ++ (v0 :: (v' ++ ')' :: b)))) =
        a ++ ((cssUrlLit ++ (v0 :: (v' ++ [')']))) ++ cssUrlPass p o b) := by
      rw [cssUrlScan_append p o a _ hpre, hstep2]
    have hregion : ∀ c ∈ a ++ (cssUrlLit ++ (v0 :: (v' ++ [')']))), c ≠ '@' := by
      intro c hc
      have hlit : ∀ x ∈ cssUrlLit, x ≠ '@' := by decide
      rcases List.mem_append.mp hc with hc | hc
      · exact ha c hc
      · rcases List.mem_append.mp hc with hc | hc
        · exact hlit c hc
        · rcases List.mem_cons.mp hc with rfl | hc
          · exact hat _ (List.mem_cons_self _ _)
          · rcases List.mem_append.mp hc with hc | hc
            · exact hat c (List.mem_cons_of_mem _ hc)
            · rcases List.mem_cons.mp hc with rfl | hc
              · decide
              · exact absurd hc (List.not_mem_nil c)
    show Except.ok (cssImportPass p o (cssUrlPass p o _)) = _
    rw [hstep1]
    rw [show a ++ ((cssUrlLit ++ (v0 :: (v' ++ [')']))) ++ cssUrlPass p o b) =
      (a ++ (cssUrlLit ++ (v0 :: (v' ++ [')'])))) ++ cssUrlPass p o b by
        simp [List.append_assoc]]
    rw [cssImportScan_append p o _ _ hregion]
    congr 1
    simp [List.append_assoc]
  · intro p o a q v b hq hv hne ha hpre hp
    have hCb : a ++ (cssImpLit ++ (' ' :: q :: (v ++ q :: b))) =
        (a ++ (cssImpLit ++ (' ' :: q :: (v ++ [q])))) ++ b := by
      simp [List.append_assoc]
    have hLen : (a ++ (cssImpLit ++ (' ' :: q :: (v ++ [q])))).length =
        a.length + (10 + v.length) := by
      simp [cssImpLit, List.length_append]
      omega
    have hIlen : (cssImpLit ++ (' ' :: q :: (v ++ [q]))).length = 10 + v.length := by
      simp [cssImpLit, List.length_append]
      omega
    have hIb : (cssImpLit ++ (' ' :: q :: (v ++ [q]))) ++ cssUrlPass p o b =
        cssImpLit ++ (' ' :: q :: (v ++ q :: cssUrlPass p o b)) := by
      simp [List.append_assoc]
    have hstep1 : cssUrlPass p o (a ++ (cssImpLit ++ (' ' :: q :: (v ++ q :: b)))) =
        (a ++ (cssImpLit ++ (' ' :: q :: (v ++ [q])))) ++ cssUrlPass p o b := by
      rw [hCb]
      show scanWith (tryCssUrl p o) _ = _
      refine scanWith_append_none _ _ b (fun i hi => ?_)
      refine tryCssUrl_none_of_not_lit p o _ ?_
      rw [← drop_in_region _ b i hi]
      rw [← hCb]
      refine hpre i ?_
      rw [hLen] at hi
      exact hi
    have hmatch : cssImportPass p o
        ((cssImpLit ++ (' ' :: q :: (v ++ [q]))) ++ cssUrlPass p o b) =
        (cssImpLit ++ (' ' :: q :: (v ++ [q]))) ++
          cssImportPass p o (cssUrlPass p o b) := by
      show scanWith (tryCssImport p o) _ = _
      refine scanWith_head_match _ _ (cssUrlPass p o b) _ (by simp [cssImpLit]) ?_
      rw [hIlen, hIb]
      rw [tryCssImport_eval p o q v (cssUrlPass p o b) hq hv hne]
      simp only [hp]
    show Except.ok (cssImportPass p o (cssUrlPass p o _)) = _
    rw [hstep1]
    rw [show (a ++ (cssImpLit ++ (' ' :: q :: (v ++ [q])))) ++ cssUrlPass p o b =
      a ++ ((cssImpLit ++ (' ' :: q :: (v ++ [q]))) ++ cssUrlPass p o b) by
        simp [List.append_assoc]]
    rw [cssImportScan_append p o a _ ha]
    rw [hmatch]
    congr 1
    simp [List.append_assoc]

/-- Witness for C7: `x: url(/img) rest` with a resolver that always
fails leaves the construct unchanged. -/
theorem c7_witness :
    rewriteCSS (fun _ => none) ("O".toList)
        (("x: ".toList) ++ (cssUrlLit ++ ('/' :: ("img".toList ++ ')' ::
          (" rest".toList))))) =
      .ok (("x: ".toList) ++ (cssUrlLit ++ ('/' :: ("img".toList ++ ')' ::
        cssImportPass (fun _ => none) ("O".toList)
          (cssUrlPass (fun _ => none) ("O".toList) (" rest".toList)))))) :=
  c7_css_bad_reference_left_unmodified.1 (fun _ => none) ("O".toList)
    ("x: ".toList) '/' ("img".toList) (" rest".toList)
    (by decide) (by decide) (by decide) (by decide) (by decide) rfl

theorem no_at_append {x y : List Char} (hx : ∀ c ∈ x, c ≠ '@')
    (hy : ∀ c ∈ y, c ≠ '@') : ∀ c ∈ x ++ y, c ≠ '@' := by
  intro c hc
  rcases List.mem_append.mp hc with hc | hc
  · exact hx c hc
  · exact hy c hc

theorem no_at_single {x : Char} (hx : x ≠ '@') : ∀ c ∈ [x], c ≠ '@' := by
  intro c hc
  rcases List.mem_cons.mp hc with rfl | hc
  · exact hx
  · exact absurd hc (List.not_mem_nil c)

/-- C8: a `url(<value>)` construct whose value resolves to `r` is
replaced by `url([quote]<origin>/<address>?browse=1[quote])` with the
original quoting preserved: any quote character is kept as is (first
conjunct, covering single and double quotes) and an unquoted value stays
unquoted (second conjunct). -/
theorem c8_css_url_rewrite_quote_preserved :
    (∀ (p : List Char → Option (List Char)) (o a : List Char) (q : Char)
        (v r b : List Char),
      isQuoteChar q = true →
      (∀ c ∈ v, cssValChar c = true) → v ≠ [] →
      (∀ c ∈ a, c ≠ '@') → (∀ c ∈ o, c ≠ '@') →
      (∀ i, i < a.length →
        cssUrlLit.isPrefixOf
          ((a ++ (cssUrlLit ++ (q :: (v ++ q :: ')' :: b)))).drop i) = false) →
      p v = some r →
      rewriteCSS p o (a ++ (cssUrlLit ++ (q :: (v ++ q :: ')' :: b)))) =
        .ok (a ++ ((cssUrlLit ++ [q] ++ o ++ ['/'] ++
          encodeURLSeg (utf8Bytes r) ++ browseQL ++ [q] ++ [')']) ++
          cssImportPass p o (cssUrlPass p o b)))) ∧
    (∀ (p : List Char → Option (List Char)) (o a : List Char) (v0 : Char)
        (v' r b : List Char),
      (∀ c ∈ (v0 :: v'), cssValChar c = true) →
      isSpaceChar v0 = false →
      (∀ c ∈ a, c ≠ '@') → (∀ c ∈ o, c ≠ '@') →
      (∀ i, i < a.length →
        cssUrlLit.isPrefixOf
          ((a ++ (cssUrlLit ++ (v0 :: (v' ++ ')' :: b)))).drop i) = false) →
      p (v0 :: v') = some r →
      rewriteCSS p o (a ++ (cssUrlLit ++ (v0 :: (v' ++ ')' :: b)))) =
        .ok (a ++ ((cssUrlLit ++ o ++ ['/'] ++
          encodeURLSeg (utf8Bytes r) ++ browseQL ++ [')']) ++
          cssImportPass p o (cssUrlPass p o b)))) := by
  have hlit : ∀ x ∈ cssUrlLit, x ≠ '@' := by decide
  have hbq : ∀ x ∈ browseQL, x ≠ '@' := by decide
  constructor
  · intro p o a q v r b hq hv hne ha hoat hpre hp
    have hCb : cssUrlLit ++ (q :: (v ++ q :: ')' :: b)) =
        (cssUrlLit ++ (q :: (v ++ q :: [')']))) ++ b := by
      simp [List.append_assoc]
    have hClen : (cssUrlLit ++ (q :: (v ++ q :: [')']))).length = 7 + v.length := by
      simp [cssUrlLit, List.length_append]
      omega
    have hstep2 : cssUrlPass p o (cssUrlLit ++ (q :: (v ++ q :: ')' :: b))) =
        (cssUrlLit ++ [q] ++ o ++ ['/'] ++ encodeURLSeg (utf8Bytes r) ++
          browseQL ++ [q] ++ [')']) ++ cssUrlPass p o b := by
      rw [hCb]
      show scanWith (tryCssUrl p o) _ = _
      refine scanWith_head_match _ _ b _ (by simp [cssUrlLit]) ?_
      rw [hClen, ← hCb]
      rw [tryCssUrl_eval_quoted p o q v b hq hv hne]
      simp only [hp]
    have hregion : ∀ c ∈ a ++ (cssUrlLit ++ [q] ++ o ++ ['/'] ++
        encodeURLSeg (utf8Bytes r) ++ browseQL ++ [q] ++ [')']), c ≠ '@' := by
      refine no_at_append ha ?_
      exact no_at_append (no_at_append (no_at_append (no_at_append (no_at_append
        (no_at_append (no_at_append hlit (no_at_single (quote_ne_at hq))) hoat)
        (no_at_single (by decide))) (encodeURLSeg_no_at _)) hbq)
        (no_at_single (quote_ne_at hq))) (no_at_single (by decide))
    show Except.ok (cssImportPass p o (cssUrlPass p o _)) = _
    rw [cssUrlScan_append p o a _ hpre, hstep2]
    rw [show a ++ ((cssUrlLit ++ [q] ++ o ++ ['/'] ++
        encodeURLSeg (utf8Bytes r) ++ browseQL ++ [q] ++ [')']) ++
        cssUrlPass p o b) =
      (a ++ (cssUrlLit ++ [q] ++ o ++ ['/'] ++ encodeURLSeg (utf8Bytes r) ++
        browseQL ++ [q] ++ [')'])) ++ cssUrlPass p o b by
        simp [List.append_assoc]]
    rw [cssImportScan_append p o _ _ hregion]
    congr 1
    simp [List.append_assoc]
  · intro p o a v0 v' r b hv hsp0 ha hoat hpre hp
    have hCb : cssUrlLit ++ (v0 :: (v' ++ ')' :: b)) =
        (cssUrlLit ++ (v0 :: (v' ++ [')']))) ++ b := by
      simp [List.append_assoc]
    have hClen : (cssUrlLit ++ (v0 :: (v' ++ [')']))).length = 6 + v'.length := by
      simp [cssUrlLit, List.length_append]
      omega
    have hstep2 : cssUrlPass p o (cssUrlLit ++ (v0 :: (v' ++ ')' :: b))) =
        (cssUrlLit ++ o ++ ['/'] ++ encodeURLSeg (utf8Bytes r) ++
          browseQL ++ [')']) ++ cssUrlPass p o b := by
      rw [hCb]
      show scanWith (tryCssUrl p o) _ = _
      refine scanWith_head_match _ _ b _ (by simp [cssUrlLit]) ?_
      rw [hClen, ← hCb]
      rw [tryCssUrl_eval_unquoted p o v0 v' b hv hsp0]
      simp only [hp]
    have hregion : ∀ c ∈ a ++ (cssUrlLit ++ o ++ ['/'] ++
        encodeURLSeg (utf8Bytes r) ++ browseQL ++ [')']), c ≠ '@' := by
      refine no_at_append ha ?_
      exact no_at_append (no_at_append (no_at_append (no_at_append
        (no_at_append hlit hoat) (no_at_single (by decide)))
        (encodeURLSeg_no_at _)) hbq) (no_at_single (by decide))
    show Except.ok (cssImportPass p o (cssUrlPass p o _)) = _
    rw [cssUrlScan_append p o a _ hpre, hstep2]
    rw [show a ++ ((cssUrlLit ++ o ++ ['/'] ++ encodeURLSeg (utf8Bytes r) ++
        browseQL ++ [')']) ++ cssUrlPass p o b) =
      (a ++ (cssUrlLit ++ o ++ ['/'] ++ encodeURLSeg (utf8Bytes r) ++
        browseQL ++ [')'])) ++ cssUrlPass p o b by
        simp [List.append_assoc]]
    rw [cssImportScan_append p o _ _ hregion]
    congr 1
    simp [List.append_assoc]

/-- Witness for C8: `x: url('/x.png') z` with a resolver prepending `R`
keeps the single quotes. -/
theorem c8_witness :
    rewriteCSS (fun v => some (("R".toList) ++ v)) ("O".toList)
        (("x: ".toList) ++ (cssUrlLit ++ (sqChar :: ("/x.png".toList ++
          (sqChar :: ')' :: (" z".toList)))))) =
      .ok (("x: ".toList) ++ ((cssUrlLit ++ [sqChar] ++ ("O".toList) ++ ['/'] ++
        encodeURLSeg (utf8Bytes (("R".toList) ++ ("/x.png".toList))) ++
        browseQL ++ [sqChar] ++ [')']) ++
        cssImportPass (fun v => some (("R".toList) ++ v)) ("O".toList)
          (cssUrlPass (fun v => some (("R".toList) ++ v)) ("O".toList)
            (" z".toList)))) :=
  c8_css_url_rewrite_quote_preserved.1 (fun v => some (("R".toList) ++ v))
    ("O".toList) ("x: ".toList) sqChar ("/x.png".toList)
    (("R".toList) ++ ("/x.png".toList)) (" z".toList)
    (by decide) (by decide) (by decide) (by decide) (by decide) (by decide) rfl

theorem https_not_pfx_http (X : List Char) :
    ("https://".toList).isPrefixOf ("http://".toList ++ X) = false := by
  have h1 : "https://".toList = 'h' :: 't' :: 't' :: 'p' :: 's' :: ':' :: '/' :: '/' :: [] := rfl
  have h2 : "http://".toList = 'h' :: 't' :: 't' :: 'p' :: ':' :: '/' :: '/' :: [] := rfl
  rw [h1, h2]
  simp [List.isPrefixOf]

/-- Evaluation of the absolute-literal JS matcher at a quoted literal
whose content is `<scheme><t>`, followed by arbitrary text. -/
theorem tryJsAbs_eval (p : List Char → Option (List Char)) (o : List Char)
    (q1 q2 : Char) (sch t b : List Char)
    (hq1 : isQuoteChar q1 = true) (hq2 : isQuoteChar q2 = true)
    (hsch : sch = "http://".toList ∨ sch = "https://".toList)
    (ht : t ≠ []) (htq : ∀ c ∈ t, isQuoteChar c = false) :
    tryJsAbs p o (q1 :: (sch ++ (t ++ q2 :: b))) =
      some ((match p (sch ++ t) with
        | some r => q1 :: (o ++ ['/'] ++ encodeURLSeg (utf8Bytes r) ++
            browseQL ++ [q2])
        | none => q1 :: (sch ++ (t ++ [q2]))),
        2 + sch.length + t.length) := by
  have htq2 : ∀ c ∈ t, (fun c2 => !(isQuoteChar c2)) c = true := by
    intro c hc
    simp [htq c hc]
  have htw := takeWhile_append_eq (fun c2 => !(isQuoteChar c2)) t q2 b htq2
    (by simp [hq2])
  have hdrop : (sch ++ (t ++ q2 :: b)).drop sch.length = t ++ q2 :: b :=
    List.drop_left sch _
  have htake : (sch ++ (t ++ q2 :: b)).take sch.length = sch :=
    List.take_left sch _
  have hlen : (q1 :: (sch ++ (t ++ q2 :: b))).length - b.length =
      2 + sch.length + t.length := by
    simp [List.length_append]
    omega
  have htkC : (q1 :: (sch ++ (t ++ q2 :: b))).take (2 + sch.length + t.length) =
      q1 :: (sch ++ (t ++ [q2])) := by
    have hsplit : q1 :: (sch ++ (t ++ q2 :: b)) =
        (q1 :: (sch ++ (t ++ [q2]))) ++ b := by
      simp [List.append_assoc]
    have hclen : (q1 :: (sch ++ (t ++ [q2]))).length =
        2 + sch.length + t.length := by
      simp [List.length_append]
      omega
    rw [hsplit, ← hclen, List.take_left]
  rcases hsch with rfl | rfl
  · have hdrop7 : ("http://".toList ++ (t ++ q2 :: b)).drop 7 = t ++ q2 :: b := by
      rw [show (7 : Nat) = ("http://".toList).length from rfl, List.drop_left]
    have htake7 : ("http://".toList ++ (t ++ q2 :: b)).take 7 = "http://".toList := by
      rw [show (7 : Nat) = ("http://".toList).length from rfl, List.take_left]
    simp only [tryJsAbs]
    rw [if_pos hq1]
    rw [if_neg (by simp [https_not_pfx_http (t ++ q2 :: b)] :
      ¬(("https://".toList).isPrefixOf
        ("http://".toList ++ (t ++ q2 :: b)) = true))]
    rw [if_pos (isPrefixOf_append_self ("http://".toList) (t ++ q2 :: b))]
    simp only [tryJsAbsTail, hdrop7, htake7, htw.1, htw.2]
    rw [if_neg ht]
    rw [hlen]
    rcases hp : p ("http://".toList ++ t) with _ | r
    · simp only [hp]
      rw [htkC]
    · simp only [hp]
  · have hdrop8 : ("https://".toList ++ (t ++ q2 :: b)).drop 8 = t ++ q2 :: b := by
      rw [show (8 : Nat) = ("https://".toList).length from rfl, List.drop_left]
    have htake8 : ("https://".toList ++ (t ++ q2 :: b)).take 8 = "https://".toList := by
      rw [show (8 : Nat) = ("https://".toList).length from rfl, List.take_left]
    simp only [tryJsAbs]
    rw [if_pos hq1]
    rw [if_pos (isPrefixOf_append_self ("https://".toList) (t ++ q2 :: b))]
    simp only [tryJsAbsTail, hdrop8, htake8, htw.1, htw.2]
    rw [if_neg ht]
    rw [hlen]
    rcases hp : p ("https://".toList ++ t) with _ | r
    · simp only [hp]
      rw [htkC]
    · simp only [hp]

theorem tryJsAbs_none_noscheme (p : List Char → Option (List Char))
    (o : List Char) (q : Char) (rest : List Char)
    (h1 : ("https://".toList).isPrefixOf rest = false)
    (h2 : ("http://".toList).isPrefixOf rest = false) :
    tryJsAbs p o (q :: rest) = none := by
  simp only [tryJsAbs]
  rcases hqc : isQuoteChar q with _ | _
  · simp [hqc]
  · rw [if_pos rfl,
      if_neg (show ¬(("https://".toList).isPrefixOf rest = true) from
        fun hc => by rw [hc] at h1; cases h1),
      if_neg (show ¬(("http://".toList).isPrefixOf rest = true) from
        fun hc => by rw [hc] at h2; cases h2)]

theorem tryJsAbs_none_noquote_tail (p : List Char → Option (List Char))
    (o : List Char) (q : Char) (rest : List Char)
    (h : ∀ c ∈ rest, isQuoteChar c = false) :
    tryJsAbs p o (q :: rest) = none := by
  have htail : ∀ k, tryJsAbsTail p o q rest k = none := by
    intro k
    have hsub : ∀ c ∈ rest.drop k, (fun c2 => !(isQuoteChar c2)) c = true := by
      intro c hc
      simp [h c (List.drop_subset k rest hc)]
    have hdw : (rest.drop k).dropWhile (fun c2 => !(isQuoteChar c2)) = [] :=
      List.dropWhile_eq_nil_iff.mpr hsub
    by_cases hrun : (rest.drop k).takeWhile (fun c2 => !(isQuoteChar c2)) = []
    · simp [tryJsAbsTail, hrun]
    · simp [tryJsAbsTail, hrun, hdw]
  simp [tryJsAbs, htail]

theorem not_pfx_append_quote :
    ∀ (sch v : List Char) (q : Char) (b : List Char),
      sch.isPrefixOf v = false → (∀ c ∈ sch, isQuoteChar c = false) →
      isQuoteChar q = true → sch.isPrefixOf (v ++ q :: b) = false
  | [], v, q, b, hv, _, _ => by simp [List.isPrefixOf] at hv
  | s :: sch', [], q, b, hv, hsch, hq => by
    have hs : isQuoteChar s = false := hsch s (List.mem_cons_self _ _)
    have hne : (s == q) = false := by
      refine beq_eq_false_iff_ne.mpr (fun he => ?_)
      rw [he, hq] at hs
      cases hs
    simp [List.isPrefixOf, hne]
  | s :: sch', x :: v', q, b, hv, hsch, hq => by
    rcases hbeq : (s == x) with _ | _
    · simp [List.isPrefixOf, hbeq]
    · simp only [List.isPrefixOf, hbeq, Bool.true_and] at hv
      have := not_pfx_append_quote sch' v' q b hv
        (fun c hc => hsch c (List.mem_cons_of_mem _ hc)) hq
      simp [List.isPrefixOf, hbeq, this]

/-- C9: in the JS rewriter's first pass, a single- or double-quoted
string literal whose content begins with `http://` or `https://` is
resolved against the base, re-encoded, and replaced with the proxied
equivalent keeping both its quote characters (first conjunct), while a
quoted literal with no scheme is left untouched by that pass (second
conjunct). -/
theorem c9_js_absolute_literal_pass :
    (∀ (p : List Char → Option (List Char)) (o a : List Char) (q1 q2 : Char)
        (sch t r b : List Char),
      isQuoteChar q1 = true → isQuoteChar q2 = true →
      (sch = "http://".toList ∨ sch = "https://".toList) →
      t ≠ [] → (∀ c ∈ t, isQuoteChar c = false) →
      (∀ c ∈ a, isQuoteChar c = false) →
      p (sch ++ t) = some r →
      jsAbsPass p o (a ++ (q1 :: (sch ++ (t ++ q2 :: b)))) =
        a ++ (q1 :: (o ++ ['/'] ++ encodeURLSeg (utf8Bytes r) ++ browseQL ++
          q2 :: jsAbsPass p o b))) ∧
    (∀ (p : List Char → Option (List Char)) (o : List Char) (q : Char)
        (v b : List Char),
      isQuoteChar q = true →
      (∀ c ∈ v, isQuoteChar c = false) →
      (∀ c ∈ b, isQuoteChar c = false) →
      ("http://".toList).isPrefixOf v = false →
      ("https://".toList).isPrefixOf v = false →
      jsAbsPass p o (q :: (v ++ q :: b)) = q :: (v ++ q :: b)) := by
  constructor
  · intro p o a q1 q2 sch t r b hq1 hq2 hsch ht htq ha hp
    rw [jsAbsScan_append p o a _ ha]
    have hCb : q1 :: (sch ++ (t ++ q2 :: b)) =
        (q1 :: (sch ++ (t ++ [q2]))) ++ b := by
      simp [List.append_assoc]
    have hClen : (q1 :: (sch ++ (t ++ [q2]))).length =
        2 + sch.length + t.length := by
      simp [List.length_append]
      omega
    have hhm : jsAbsPass p o (q1 :: (sch ++ (t ++ q2 :: b))) =
        (q1 :: (o ++ ['/'] ++ encodeURLSeg (utf8Bytes r) ++ browseQL ++ [q2])) ++
          jsAbsPass p o b := by
      rw [hCb]
      show scanWith (tryJsAbs p o) _ = _
      refine scanWith_head_match _ _ b _ (by simp) ?_
      rw [hClen, ← hCb]
      rw [tryJsAbs_eval p o q1 q2 sch t b hq1 hq2 hsch ht htq]
      simp only [hp]
    rw [hhm]
    congr 1
    simp [List.append_assoc]
  · intro p o q v b hq hv hb hpf1 hpf2
    have h1 := not_pfx_append_quote ("https://".toList) v q b hpf2 (by decide) hq
    have h2 := not_pfx_append_quote ("http://".toList) v q b hpf1 (by decide) hq
    show scanWith (tryJsAbs p o) _ = _
    rw [scanWith_cons_none _ _ _ (tryJsAbs_none_noscheme p o q _ h1 h2)]
    congr 1
    rw [show scanWith (tryJsAbs p o) (v ++ q :: b) =
      jsAbsPass p o (v ++ q :: b) from rfl]
    rw [jsAbsScan_append p o v (q :: b) hv]
    congr 1
    show scanWith (tryJsAbs p o) (q :: b) = q :: b
    rw [scanWith_cons_none _ _ _ (tryJsAbs_none_noquote_tail p o q b hb)]
    congr 1
    refine scanWith_eq_self _ b (fun i hi => ?_)
    obtain ⟨c, tl, hct⟩ : ∃ c tl, b.drop i = c :: tl := by
      cases hd : b.drop i with
      | nil =>
        exfalso
        have := List.drop_eq_nil_iff.mp hd
        omega
      | cons c tl => exact ⟨c, tl, rfl⟩
    rw [hct]
    refine tryJsAbs_none_of_head p o c _ (hb c ?_)
    exact List.drop_subset i b (hct ▸ List.mem_cons_self c tl)

/-- Witness for C9's two parts: `fetch("https://example.com/api")` is
rewritten preserving its double quotes, and `fetch("/api")` is left
untouched by the pass. -/
theorem c9_witness :
    (jsAbsPass (fun s => some s) ("O".toList)
        (("fetch(".toList) ++ (dqChar :: ("https://".toList ++
          (("example.com/api".toList) ++ dqChar :: (")".toList))))) =
      ("fetch(".toList) ++ (dqChar :: (("O".toList) ++ ['/'] ++
        encodeURLSeg (utf8Bytes ("https://".toList ++ ("example.com/api".toList))) ++
        browseQL ++ dqChar :: jsAbsPass (fun s => some s) ("O".toList)
          (")".toList)))) ∧
    (jsAbsPass (fun s => some s) ("O".toList)
        (dqChar :: (("/api".toList) ++ dqChar :: (")".toList))) =
      dqChar :: (("/api".toList) ++ dqChar :: (")".toList))) :=
  ⟨c9_js_absolute_literal_pass.1 (fun s => some s) ("O".toList)
    ("fetch(".toList) dqChar dqChar ("https://".toList)
    ("example.com/api".toList)
    ("https://".toList ++ ("example.com/api".toList)) (")".toList)
    (by decide) (by decide) (Or.inr rfl) (by decide) (by decide) (by decide) rfl,
   c9_js_absolute_literal_pass.2 (fun s => some s) ("O".toList) dqChar
    ("/api".toList) (")".toList)
    (by decide) (by decide) (by decide) (by decide) (by decide)⟩

/-- The bad-target condition of the Target Resolver: missing segment,
base64 decode failure, or a decoded URL that fails to parse or has empty
scheme or host. -/
def badTargetCond (env : Env) (r : InRequest) : Prop :=
  stripLeadingSlash r.path = [] ∨
  decodeURLSeg (stripLeadingSlash r.path) = none ∨
  ∃ bs, decodeURLSeg (stripLeadingSlash r.path) = some bs ∧
    (env.parseURL bs = none ∨
     ∃ u, env.parseURL bs = some u ∧ (u.scheme = [] ∨ u.host = []))

/-- The body-read/rewrite step of the chosen strategy fails (reading the
upstream body, or the rewriter itself, which only the HTML rewriter's
external parse/render steps can make fail). -/
def rwStepFails (env : Env) (r : InRequest) (resp : UpResponse) : Prop :=
  match classify (headerGet ctKeyL resp.headers) r.browse with
  | .passThrough => False
  | .rewriteHtml => resp.readOk = false ∨
      rwFailed (rewriteHTML env.htmlParse env.htmlRender env.resolveRef
        ((if r.tls then schemeHttpsL else schemeHttpL) ++ r.host)
        resp.bodyStream) = true
  | .rewriteCss => resp.readOk = false ∨
      rwFailed (rewriteCSS env.resolveRef
        ((if r.tls then schemeHttpsL else schemeHttpL) ++ r.host)
        resp.bodyStream) = true
  | .rewriteJs => resp.readOk = false ∨
      rwFailed (rewriteJS env.resolveRef
        ((if r.tls then schemeHttpsL else schemeHttpL) ++ r.host)
        resp.bodyStream) = true

/-- The upstream-stage failure condition: outbound request construction
fails, the transport fails, or the read/rewrite step of the response
fails. -/
def upstreamFailCond (env : Env) (r : InRequest) : Prop :=
  env.newReqOk = false ∨ env.doReq = none ∨
  ∃ resp, env.doReq = some resp ∧ rwStepFails env r resp

/-- C4: the handler generates a 400 error exactly on a bad target, a 500
error exactly when the target is good but outbound construction, the
transport, or the body read/rewrite fails, and otherwise answers with the
upstream's own status code. -/
theorem c4_status_codes (env : Env) (r : InRequest) :
    ((proxyHandler env r).errStatus = some 400 ↔ badTargetCond env r) ∧
    ((proxyHandler env r).errStatus = some 500 ↔
      (¬ badTargetCond env r ∧ upstreamFailCond env r)) ∧
    ((proxyHandler env r).errStatus = none →
      ∃ resp, env.doReq = some resp ∧
        (proxyHandler env r).status = resp.statusCode) := by
  by_cases h1 : stripLeadingSlash r.path = []
  · have hh : proxyHandler env r = .httpError 400 ("Missing encoded URL".toList) := by
      simp [proxyHandler, h1]
    rw [hh]
    simp only [Outcome.errStatus]
    refine ⟨⟨fun _ => Or.inl h1, fun _ => by trivial⟩, ⟨?_, ?_⟩, ?_⟩
    · intro hc; exact absurd hc (by decide)
    · rintro ⟨hna, _⟩; exact absurd (Or.inl h1) hna
    · intro hc; exact absurd hc (by decide)
  · cases hdec : decodeURLSeg (stripLeadingSlash r.path) with
    | none =>
      have hh : proxyHandler env r =
          .httpError 400 ("Invalid base64 encoding".toList) := by
        simp [proxyHandler, h1, hdec]
      rw [hh]
      simp only [Outcome.errStatus]
      refine ⟨⟨fun _ => Or.inr (Or.inl hdec), fun _ => by trivial⟩, ⟨?_, ?_⟩, ?_⟩
      · intro hc; exact absurd hc (by decide)
      · rintro ⟨hna, _⟩; exact absurd (Or.inr (Or.inl hdec)) hna
      · intro hc; exact absurd hc (by decide)
    | some bs =>
      cases hup : env.parseURL bs with
      | none =>
        have hh : proxyHandler env r =
            .httpError 400 ("Invalid upstream URL".toList) := by
          simp [proxyHandler, h1, hdec, hup]
        rw [hh]
        simp only [Outcome.errStatus]
        have hA : badTargetCond env r :=
          Or.inr (Or.inr ⟨bs, hdec, Or.inl hup⟩)
        refine ⟨⟨fun _ => hA, fun _ => by trivial⟩, ⟨?_, ?_⟩, ?_⟩
        · intro hc; exact absurd hc (by decide)
        · rintro ⟨hna, _⟩; exact absurd hA hna
        · intro hc; exact absurd hc (by decide)
      | some u =>
        by_cases hvalid : u.scheme = [] ∨ u.host = []
        · have hh : proxyHandler env r =
              .httpError 400 ("Invalid upstream URL".toList) := by
            simp [proxyHandler, h1, hdec, hup, hvalid]
          rw [hh]
          simp only [Outcome.errStatus]
          have hA : badTargetCond env r :=
            Or.inr (Or.inr ⟨bs, hdec, Or.inr ⟨u, hup, hvalid⟩⟩)
          refine ⟨⟨fun _ => hA, fun _ => by trivial⟩, ⟨?_, ?_⟩, ?_⟩
          · intro hc; exact absurd hc (by decide)
          · rintro ⟨hna, _⟩; exact absurd hA hna
          · intro hc; exact absurd hc (by decide)
        · have hnA : ¬ badTargetCond env r := by
            rintro (hA | hA | ⟨bs', hbs', hA | ⟨u', hu', hbad⟩⟩)
            · exact h1 hA
            · rw [hdec] at hA; cases hA
            · rw [hdec] at hbs'
              injection hbs' with he
              subst he
              rw [hup] at hA
              cases hA
            · rw [hdec] at hbs'
              injection hbs' with he
              subst he
              rw [hup] at hu'
              injection hu' with he2
              subst he2
              exact hvalid hbad
          cases hreq : env.newReqOk with
          | false =>
            have hh : proxyHandler env r =
                .httpError 500 ("Failed to create upstream request".toList) := by
              simp [proxyHandler, h1, hdec, hup, hvalid, hreq]
            rw [hh]
            simp only [Outcome.errStatus]
            refine ⟨⟨?_, ?_⟩, ⟨fun _ => ⟨hnA, Or.inl hreq⟩, fun _ => by trivial⟩, ?_⟩
            · intro hc; exact absurd hc (by decide)
            · intro hA; exact absurd hA hnA
            · intro hc; exact absurd hc (by decide)
          | true =>
            cases hdo : env.doReq with
            | none =>
              have hh : proxyHandler env r =
                  .httpError 500 ("Upstream request failed".toList) := by
                simp [proxyHandler, h1, hdec, hup, hvalid, hreq, hdo]
              rw [hh]
              simp only [Outcome.errStatus]
              refine ⟨⟨?_, ?_⟩, ⟨fun _ => ⟨hnA, Or.inr (Or.inl hdo)⟩,
                fun _ => by trivial⟩, ?_⟩
              · intro hc; exact absurd hc (by decide)
              · intro hA; exact absurd hA hnA
              · intro hc; exact absurd hc (by decide)
            | some resp =>
              cases hcl : classify (headerGet ctKeyL resp.headers)
                  r.browse with
              | rewriteHtml =>
                cases hro : resp.readOk with
                | false =>
                  have hh : proxyHandler env r =
                      .httpError 500 ("Error reading upstream HTML".toList) := by
                    simp [proxyHandler, h1, hdec, hup, hvalid, hreq, hdo, hcl, hro]
                  rw [hh]
                  simp only [Outcome.errStatus]
                  have hB : upstreamFailCond env r := by
                    refine Or.inr (Or.inr ⟨resp, hdo, ?_⟩)
                    simp only [rwStepFails, hcl]
                    exact Or.inl hro
                  refine ⟨⟨?_, ?_⟩, ⟨fun _ => ⟨hnA, hB⟩, fun _ => by trivial⟩, ?_⟩
                  · intro hc; exact absurd hc (by decide)
                  · intro hA; exact absurd hA hnA
                  · intro hc; exact absurd hc (by decide)
                | true =>
                  cases hrw : rewriteHTML env.htmlParse env.htmlRender env.resolveRef
                      ((if r.tls then schemeHttpsL else schemeHttpL) ++
                        r.host) resp.bodyStream with
                  | error e =>
                    have hh : proxyHandler env r =
                        .httpError 500 ("Error rewriting HTML".toList) := by
                      simp [proxyHandler, h1, hdec, hup, hvalid, hreq, hdo, hcl,
                        hro, hrw]
                    rw [hh]
                    simp only [Outcome.errStatus]
                    have hB : upstreamFailCond env r := by
                      refine Or.inr (Or.inr ⟨resp, hdo, ?_⟩)
                      simp only [rwStepFails, hcl]
                      refine Or.inr ?_
                      rw [hrw]
                      rfl
                    refine ⟨⟨?_, ?_⟩, ⟨fun _ => ⟨hnA, hB⟩, fun _ => by trivial⟩, ?_⟩
                    · intro hc; exact absurd hc (by decide)
                    · intro hA; exact absurd hA hnA
                    · intro hc; exact absurd hc (by decide)
                  | ok rw0 =>
                    have hh : proxyHandler env r = .proxied resp.statusCode
                        (copyRespHeaders r.browse resp.headers) rw0 := by
                      simp [proxyHandler, h1, hdec, hup, hvalid, hreq, hdo, hcl,
                        hro, hrw]
                    have hnB : ¬ upstreamFailCond env r := by
                      rintro (hB | hB | ⟨resp', hresp', hfail⟩)
                      · rw [hreq] at hB; cases hB
                      · rw [hdo] at hB; cases hB
                      · rw [hdo] at hresp'
                        injection hresp' with he
                        subst he
                        simp only [rwStepFails, hcl] at hfail
                        rcases hfail with hf | hf
                        · rw [hro] at hf; cases hf
                        · rw [hrw] at hf; cases hf
                    rw [hh]
                    simp only [Outcome.errStatus, Outcome.status]
                    refine ⟨⟨?_, ?_⟩, ⟨?_, ?_⟩, ?_⟩
                    · intro hc; exact absurd hc (by decide)
                    · intro hA; exact absurd hA hnA
                    · intro hc; exact absurd hc (by decide)
                    · rintro ⟨_, hB⟩; exact absurd hB hnB
                    · intro _; exact ⟨resp, rfl, rfl⟩
              | rewriteCss =>
                cases hro : resp.readOk with
                | false =>
                  have hh : proxyHandler env r =
                      .httpError 500 ("Error reading upstream CSS".toList) := by
                    simp [proxyHandler, h1, hdec, hup, hvalid, hreq, hdo, hcl, hro]
                  rw [hh]
                  simp only [Outcome.errStatus]
                  have hB : upstreamFailCond env r := by
                    refine Or.inr (Or.inr ⟨resp, hdo, ?_⟩)
                    simp only [rwStepFails, hcl]
                    exact Or.inl hro
                  refine ⟨⟨?_, ?_⟩, ⟨fun _ => ⟨hnA, hB⟩, fun _ => by trivial⟩, ?_⟩
                  · intro hc; exact absurd hc (by decide)
                  · intro hA; exact absurd hA hnA
                  · intro hc; exact absurd hc (by decide)
                | true =>
                  have hh : proxyHandler env r = .proxied resp.statusCode
                      (copyRespHeaders r.browse resp.headers)
                      (cssImportPass env.resolveRef
                        ((if r.tls then schemeHttpsL else schemeHttpL) ++
                          r.host)
                        (cssUrlPass env.resolveRef
                          ((if r.tls then schemeHttpsL else schemeHttpL) ++
                            r.host) resp.bodyStream)) := by
                    simp [proxyHandler, h1, hdec, hup, hvalid, hreq, hdo, hcl,
                      hro, rewriteCSS]
                  have hnB : ¬ upstreamFailCond env r := by
                    rintro (hB | hB | ⟨resp', hresp', hfail⟩)
                    · rw [hreq] at hB; cases hB
                    · rw [hdo] at hB; cases hB
                    · rw [hdo] at hresp'
                      injection hresp' with he
                      subst he
                      simp only [rwStepFails, hcl] at hfail
                      rcases hfail with hf | hf
                      · rw [hro] at hf; cases hf
                      · rw [show rewriteCSS env.resolveRef
                          ((if r.tls then schemeHttpsL else schemeHttpL) ++
                            r.host) resp.bodyStream = Except.ok
                          (cssImportPass env.resolveRef
                            ((if r.tls then schemeHttpsL else
                              schemeHttpL) ++ r.host)
                            (cssUrlPass env.resolveRef
                              ((if r.tls then schemeHttpsL else
                                schemeHttpL) ++ r.host)
                              resp.bodyStream)) from rfl] at hf
                        cases hf
                  rw [hh]
                  simp only [Outcome.errStatus, Outcome.status]
                  refine ⟨⟨?_, ?_⟩, ⟨?_, ?_⟩, ?_⟩
                  · intro hc; exact absurd hc (by decide)
                  · intro hA; exact absurd hA hnA
                  · intro hc; exact absurd hc (by decide)
                  · rintro ⟨_, hB⟩; exact absurd hB hnB
                  · intro _; exact ⟨resp, rfl, rfl⟩
              | rewriteJs =>
                cases hro : resp.readOk with
                | false =>
                  have hh : proxyHandler env r =
                      .httpError 500 ("Error reading upstream JavaScript".toList) := by
                    simp [proxyHandler, h1, hdec, hup, hvalid, hreq, hdo, hcl, hro]
                  rw [hh]
                  simp only [Outcome.errStatus]
                  have hB : upstreamFailCond env r := by
                    refine Or.inr (Or.inr ⟨resp, hdo, ?_⟩)
                    simp only [rwStepFails, hcl]
                    exact Or.inl hro
                  refine ⟨⟨?_, ?_⟩, ⟨fun _ => ⟨hnA, hB⟩, fun _ => by trivial⟩, ?_⟩
                  · intro hc; exact absurd hc (by decide)
                  · intro hA; exact absurd hA hnA
                  · intro hc; exact absurd hc (by decide)
                | true =>
                  have hh : proxyHandler env r = .proxied resp.statusCode
                      (copyRespHeaders r.browse resp.headers)
                      (jsUrlFnPass
                        ((if r.tls then schemeHttpsL else schemeHttpL) ++
                          r.host)
                        (jsFromPass env.resolveRef
                          ((if r.tls then schemeHttpsL else schemeHttpL) ++
                            r.host)
                          (jsDynImportPass env.resolveRef
                            ((if r.tls then schemeHttpsL else
                              schemeHttpL) ++ r.host)
                            (jsAbsPass env.resolveRef
                              ((if r.tls then schemeHttpsL else
                                schemeHttpL) ++ r.host)
                              resp.bodyStream)))) := by
                    simp [proxyHandler, h1, hdec, hup, hvalid, hreq, hdo, hcl,
                      hro, rewriteJS]
                  have hnB : ¬ upstreamFailCond env r := by
                    rintro (hB | hB | ⟨resp', hresp', hfail⟩)
                    · rw [hreq] at hB; cases hB
                    · rw [hdo] at hB; cases hB
                    · rw [hdo] at hresp'
                      injection hresp' with he
                      subst he
                      simp only [rwStepFails, hcl] at hfail
                      rcases hfail with hf | hf
                      · rw [hro] at hf; cases hf
                      · rw [show rewriteJS env.resolveRef
                          ((if r.tls then schemeHttpsL else schemeHttpL) ++
                            r.host) resp.bodyStream = Except.ok
                          (jsUrlFnPass
                            ((if r.tls then schemeHttpsL else
                              schemeHttpL) ++ r.host)
                            (jsFromPass env.resolveRef
                              ((if r.tls then schemeHttpsL else
                                schemeHttpL) ++ r.host)
                              (jsDynImportPass env.resolveRef
                                ((if r.tls then schemeHttpsL else
                                  schemeHttpL) ++ r.host)
                                (jsAbsPass env.resolveRef
                                  ((if r.tls then schemeHttpsL else
                                    schemeHttpL) ++ r.host)
                                  resp.bodyStream)))) from rfl] at hf
                        cases hf
                  rw [hh]
                  simp only [Outcome.errStatus, Outcome.status]
                  refine ⟨⟨?_, ?_⟩, ⟨?_, ?_⟩, ?_⟩
                  · intro hc; exact absurd hc (by decide)
                  · intro hA; exact absurd hA hnA
                  · intro hc; exact absurd hc (by decide)
                  · rintro ⟨_, hB⟩; exact absurd hB hnB
                  · intro _; exact ⟨resp, rfl, rfl⟩
              | passThrough =>
                have hh : proxyHandler env r = .proxied resp.statusCode
                    (copyRespHeaders r.browse resp.headers) resp.bodyStream := by
                  simp [proxyHandler, h1, hdec, hup, hvalid, hreq, hdo, hcl]
                have hnB : ¬ upstreamFailCond env r := by
                  rintro (hB | hB | ⟨resp', hresp', hfail⟩)
                  · rw [hreq] at hB; cases hB
                  · rw [hdo] at hB; cases hB
                  · rw [hdo] at hresp'
                    injection hresp' with he
                    subst he
                    simp only [rwStepFails, hcl] at hfail
                rw [hh]
                simp only [Outcome.errStatus, Outcome.status]
                refine ⟨⟨?_, ?_⟩, ⟨?_, ?_⟩, ?_⟩
                · intro hc; exact absurd hc (by decide)
                · intro hA; exact absurd hA hnA
                · intro hc; exact absurd hc (by decide)
                · rintro ⟨_, hB⟩; exact absurd hB hnB
                · intro _; exact ⟨resp, rfl, rfl⟩

/-- A concrete environment for exercising the handler: parsing always
yields `http://x`, the upstream answers 418 with an empty body. -/
def c4EnvW : Env :=
  { parseURL := fun _ => some { scheme := "http".toList, host := "x".toList },
    resolveRef := fun _ => none,
    htmlParse := fun _ => none,
    htmlRender := fun _ => none,
    newReqOk := true,
    doReq := some ⟨418, [], [], true⟩ }

/-- A concrete inbound request addressing `http://x` without browse
mode. -/
def c4ReqW : InRequest :=
  { path := ("/".toList) ++ encodeURLSeg (utf8Bytes ("http://x".toList)),
    browse := false, headers := [], host := "p".toList, tls := false }

/-- Witness for C4: on a well-formed request with a healthy upstream the
handler passes the upstream's own 418 through. -/
theorem c4_witness :
    ∃ resp, c4EnvW.doReq = some resp ∧
      (proxyHandler c4EnvW c4ReqW).status = resp.statusCode :=
  (c4_status_codes c4EnvW c4ReqW).2.2 (by decide)
